import Mathlib

/-!
# QuickQR — verification of the analytics ingestion/aggregation component

Shallow embedding of the QuickQR sources:

* `src/src/app/api/analytics/route.ts` — the `POST /api/analytics` ingestion
  endpoint (`readIpAddress`, `hashIpAddress`, `POST`) and, in the same file,
  the client page (`normalizeUrl`, `trackEvent`, `onGenerate`,
  `onDownloadPng`, `onDownloadSvg`).
* `src/unnamed/part_000` — the SQL schema of `public.analytics_events`
  (`event_type` check constraint, defaults).
* `src/README.md` (embedded admin page source) — `AdminPage`, `countByType`,
  `readDomain`, the domain tally, and the 14-day trend buckets.

Modelling conventions:

* JS strings are Lean `String`s; `undefined`/`null` are `Option`.
* Machine timestamps are `Nat` milliseconds since the Unix epoch (UTC; the
  server runs in UTC, the spec's "server time zone").  A calendar day is the
  `Nat` quotient by `msPerDay`; the source keys day buckets with
  `toISOString().slice(0, 10)`, which is in bijection with that quotient, so
  day numbers stand in for ISO date strings.
* `new URL(...)` (WHATWG URL) is modelled by an executable parser below,
  covering scheme parsing, authority/host/port validation, path splitting
  with dot-segment removal, query/fragment, percent-encoding and the special
  serialization rules.  IDNA/punycode for non-ASCII hosts, IPv4 host
  normalization and `file:` drive letters are outside the model (the model
  rejects non-ASCII hosts); no theorem below depends on those inputs.
* `node:crypto` SHA-256 is implemented in full (`sha256Bytes`).
* JS `Map` is an association list: `set` of a fresh key appends, `set` of an
  existing key updates in place, iteration is insertion order.
-/

namespace QuickQR

/-! ## Character helpers and JS string trimming -/

/-- JS `WhiteSpace`/`LineTerminator` characters, as trimmed by
`String.prototype.trim` (tab, LF, VT, FF, CR, space, NBSP, BOM and the
Unicode space separators). -/
def isJsWs (c : Char) : Bool :=
  c = '\t' || c = '\n' || c.toNat = 0x0B || c.toNat = 0x0C || c = '\r' ||
  c = ' ' || c.toNat = 0xA0 || c.toNat = 0x1680 ||
  (0x2000 ≤ c.toNat && c.toNat ≤ 0x200A) ||
  c.toNat = 0x2028 || c.toNat = 0x2029 || c.toNat = 0x202F ||
  c.toNat = 0x205F || c.toNat = 0x3000 || c.toNat = 0xFEFF

/-- Drop matching characters from the end of a list. -/
def dropTrailWhile (p : Char → Bool) (l : List Char) : List Char :=
  (l.reverse.dropWhile p).reverse

/-- JS `String.prototype.trim` on a character list. -/
def jsTrimChars (l : List Char) : List Char :=
  dropTrailWhile isJsWs (l.dropWhile isJsWs)

/-- JS `String.prototype.trim`. -/
def jsTrim (s : String) : String := String.mk (jsTrimChars s.data)

/-- C0 control or space (stripped from URL input ends by the URL parser). -/
def isC0Space (c : Char) : Bool := c.toNat ≤ 0x20

/-- ASCII tab or newline (removed everywhere in URL input by the URL parser). -/
def isTabNl (c : Char) : Bool := c = '\t' || c = '\n' || c = '\r'

def isAsciiUpper (c : Char) : Bool := 'A' ≤ c && c ≤ 'Z'
def isAsciiDigit (c : Char) : Bool := '0' ≤ c && c ≤ '9'
def isAsciiAlpha (c : Char) : Bool := isAsciiUpper c || ('a' ≤ c && c ≤ 'z')

/-- ASCII lowercasing of one character. -/
def lowerChar (c : Char) : Char :=
  if isAsciiUpper c then Char.ofNat (c.toNat + 32) else c

/-- ASCII lowercasing of a character list. -/
def lowerChars (l : List Char) : List Char := l.map lowerChar

def isHexDigitCh (c : Char) : Bool :=
  isAsciiDigit c || ('a' ≤ c && c ≤ 'f') || ('A' ≤ c && c ≤ 'F')

def hexVal (c : Char) : Nat :=
  if isAsciiDigit c then c.toNat - '0'.toNat
  else if 'a' ≤ c && c ≤ 'f' then c.toNat - 'a'.toNat + 10
  else if 'A' ≤ c && c ≤ 'F' then c.toNat - 'A'.toNat + 10
  else 0

/-- Uppercase hex digit of a value below 16 (percent-encoding uses uppercase). -/
def hexDigitU (n : Nat) : Char :=
  if n < 10 then Char.ofNat ('0'.toNat + n)
  else Char.ofNat ('A'.toNat + (n - 10))

/-- Lowercase hex digit of a value below 16 (node digests use lowercase). -/
def hexDigitL (n : Nat) : Char :=
  if n < 10 then Char.ofNat ('0'.toNat + n)
  else Char.ofNat ('a'.toNat + (n - 10))

/-- UTF-8 bytes of a Unicode code point. -/
def utf8EncodeNat (n : Nat) : List Nat :=
  if n < 0x80 then [n]
  else if n < 0x800 then [0xC0 + n / 64, 0x80 + n % 64]
  else if n < 0x10000 then
    [0xE0 + n / 4096, 0x80 + (n / 64) % 64, 0x80 + n % 64]
  else
    [0xF0 + n / 262144, 0x80 + (n / 4096) % 64, 0x80 + (n / 64) % 64,
     0x80 + n % 64]

/-- UTF-8 bytes of a string. -/
def strUtf8 (s : String) : List Nat := s.data.flatMap (fun c => utf8EncodeNat c.toNat)

/-! ## JS `Map` as an association list

JS `Map.get` returns `undefined` for absent keys; `Map.set` updates an
existing key in place (keeping its insertion position) and appends a fresh
key at the end; iteration follows insertion order. -/

def mapGet {κ ν : Type} [DecidableEq κ] (k : κ) : List (κ × ν) → Option ν
  | [] => none
  | (k', v) :: t => if k = k' then some v else mapGet k t

def mapSet {κ ν : Type} [DecidableEq κ] (k : κ) (v : ν) :
    List (κ × ν) → List (κ × ν)
  | [] => [(k, v)]
  | (k', v') :: t => if k = k' then (k, v) :: t else (k', v') :: mapSet k v t

/-- First-occurrence scan with the elements already seen. -/
def firstOccsAux {α : Type} [DecidableEq α] (seen : List α) :
    List α → List α
  | [] => []
  | x :: xs =>
    if x ∈ seen then firstOccsAux seen xs
    else x :: firstOccsAux (seen ++ [x]) xs

/-- The first occurrences of each element, in order of first appearance
(the key order of a JS `Map` built by repeated `set`, and the element
enumeration of a JS `Set`). -/
def firstOccs {α : Type} [DecidableEq α] (l : List α) : List α :=
  firstOccsAux [] l

/-! ## WHATWG URL model (`new URL(input)` with no base)

Executable model of the WHATWG basic URL parser for absolute URLs, as
implemented by node / the browsers, restricted as described in the header. -/

/-- Percent-encode set: C0 controls and all non-ASCII. -/
def c0CtlSet (c : Char) : Bool := c.toNat ≤ 0x1F || c.toNat ≥ 0x7F

/-- Fragment percent-encode set. -/
def fragmentEncSet (c : Char) : Bool :=
  c0CtlSet c || c = ' ' || c = '"' || c = '<' || c = '>' || c = '`'

/-- Query percent-encode set (non-special schemes). -/
def queryEncSet (c : Char) : Bool :=
  c0CtlSet c || c = ' ' || c = '"' || c = '#' || c = '<' || c = '>'

/-- Query percent-encode set for special schemes (adds the apostrophe). -/
def specialQueryEncSet (c : Char) : Bool :=
  queryEncSet c || c.toNat = 0x27

/-- Path percent-encode set. -/
def pathEncSet (c : Char) : Bool :=
  queryEncSet c || c = '?' || c = '`' || c.toNat = 0x7B || c.toNat = 0x7D

/-- Userinfo percent-encode set. -/
def userinfoEncSet (c : Char) : Bool :=
  pathEncSet c || c = '/' || c = ':' || c = ';' || c = '=' || c = '@' ||
  c = '[' || c = '\\' || c = ']' || c = '^' || c.toNat = 0x7C

/-- Percent-encode the characters selected by `inSet` (UTF-8 based). -/
def pctEncode (inSet : Char → Bool) (l : List Char) : List Char :=
  l.flatMap (fun c =>
    if inSet c then
      (utf8EncodeNat c.toNat).flatMap
        (fun b => ['%', hexDigitU (b / 16), hexDigitU (b % 16)])
    else [c])

/-- Percent-decode, with a step-count fuel for structural recursion. -/
def pctDecodeGo : Nat → List Char → List Char
  | 0, l => l
  | _, [] => []
  | n + 1, '%' :: a :: b :: rest =>
    if isHexDigitCh a && isHexDigitCh b then
      Char.ofNat (hexVal a * 16 + hexVal b) :: pctDecodeGo n rest
    else '%' :: pctDecodeGo n (a :: b :: rest)
  | n + 1, c :: rest => c :: pctDecodeGo n rest

/-- Percent-decode: valid `%XX` triples become the byte, anything else is
kept verbatim (as the WHATWG decoder does). -/
def pctDecode (l : List Char) : List Char := pctDecodeGo l.length l

/-- Forbidden domain code point (WHATWG): C0 controls, space, and the listed
delimiters, `%` and DEL. -/
def isForbiddenDomainChar (c : Char) : Bool :=
  c.toNat ≤ 0x20 || c = '#' || c = '/' || c = ':' || c = '<' || c = '>' ||
  c = '?' || c = '@' || c = '[' || c = '\\' || c = ']' || c = '^' ||
  c.toNat = 0x7C || c = '%' || c.toNat = 0x7F

/-- Forbidden host code point (WHATWG, non-special "opaque" hosts). -/
def isForbiddenHostChar (c : Char) : Bool :=
  c.toNat = 0 || c = '\t' || c = '\n' || c = '\r' || c = ' ' || c = '#' ||
  c = '/' || c = ':' || c = '<' || c = '>' || c = '?' || c = '@' ||
  c = '[' || c = '\\' || c = ']' || c = '^' || c.toNat = 0x7C

/-- Scheme characters after the first (ASCII alphanumeric, `+`, `-`, `.`). -/
def isSchemeChar (c : Char) : Bool :=
  isAsciiAlpha c || isAsciiDigit c || c = '+' || c = '-' || c = '.'

/-- URL input normalization: strip leading/trailing C0-or-space, then remove
every tab and newline. -/
def normChars (s : String) : List Char :=
  (dropTrailWhile isC0Space (s.data.dropWhile isC0Space)).filter
    (fun c => !(isTabNl c))

/-- Read scheme characters up to `:`; yields the raw scheme characters and
the remainder after the colon. -/
def schemeAux : List Char → Option (List Char × List Char)
  | [] => none
  | c :: cs =>
    if c = ':' then some ([], cs)
    else if isSchemeChar c then
      (schemeAux cs).map (fun p => (c :: p.1, p.2))
    else none

/-- Split off a URL scheme (first character must be ASCII alpha). -/
def schemeSplit : List Char → Option (List Char × List Char)
  | [] => none
  | c :: cs =>
    if isAsciiAlpha c then (schemeAux cs).map (fun p => (c :: p.1, p.2))
    else none

/-- The special schemes and their default ports (`file:` is handled by the
generic authority branch below; its drive-letter quirks are outside the
model). -/
def specialSchemes : List (String × Option Nat) :=
  [("http", some 80), ("https", some 443), ("ws", some 80),
   ("wss", some 443), ("ftp", some 21)]

/-- Split a character list at the first occurrence of `c`:
`(before, some after)` or `(l, none)`. -/
def splitAtFirst (c : Char) : List Char → List Char × Option (List Char)
  | [] => ([], none)
  | x :: xs =>
    if x = c then ([], some xs)
    else
      let r := splitAtFirst c xs
      (x :: r.1, r.2)

/-- Split at the last occurrence of `c` (used for the `@` of userinfo). -/
def splitAtLast (c : Char) (l : List Char) : Option (List Char × List Char) :=
  match splitAtFirst c l.reverse with
  | (_, none) => none
  | (afterRev, some beforeRev) => some (beforeRev.reverse, afterRev.reverse)

/-- Split a list on every separator selected by `p`; always returns at least
one (possibly empty) piece. -/
def splitOnPred (p : Char → Bool) : List Char → List (List Char)
  | [] => [[]]
  | c :: cs =>
    let r := splitOnPred p cs
    if p c then [] :: r
    else
      match r with
      | h :: t => (c :: h) :: t
      | [] => [[c]]

/-- A single-dot path segment (`.` or a percent-encoded spelling). -/
def isDotSeg (l : List Char) : Bool :=
  lowerChars l = ['.'] || lowerChars l = ['%', '2', 'e']

/-- A double-dot path segment (`..` or a percent-encoded spelling). -/
def isDotDotSeg (l : List Char) : Bool :=
  lowerChars l = ['.', '.'] || lowerChars l = ['.', '%', '2', 'e'] ||
  lowerChars l = ['%', '2', 'e', '.'] ||
  lowerChars l = ['%', '2', 'e', '%', '2', 'e']

/-- WHATWG path state dot-segment handling over already-split segments:
`..` pops the previous segment, `.` is dropped, and a trailing dot segment
additionally emits an empty segment.  `acc` holds emitted segments in
reverse. -/
def remDots (acc : List (List Char)) : List (List Char) → List (List Char)
  | [] => acc.reverse
  | [s] =>
    if isDotDotSeg s then (acc.drop 1).reverse ++ [[]]
    else if isDotSeg s then acc.reverse ++ [[]]
    else acc.reverse ++ [s]
  | s :: rest =>
    if isDotDotSeg s then remDots (acc.drop 1) rest
    else if isDotSeg s then remDots acc rest
    else remDots (s :: acc) rest

/-- URL paths: a segment list (serialized `/seg/seg/...`) or a single
non-hierarchical path string. -/
inductive UPath where
  | segs (l : List String)
  | plain (s : String)
deriving DecidableEq, Repr

/-- Parsed URL record (the components node exposes on a `URL` object). -/
structure URLRec where
  scheme : String
  username : String
  password : String
  host : Option String
  port : Option Nat
  path : UPath
  query : Option String
  fragment : Option String
deriving DecidableEq, Repr

/-- `url.protocol`. -/
def URLRec.protocol (u : URLRec) : String := u.scheme ++ ":"

/-- `url.hostname` (empty string when there is no host). -/
def URLRec.hostname (u : URLRec) : String := u.host.getD ""

/-- Path serialization. -/
def UPath.ser : UPath → String
  | .segs l => l.foldl (fun a s => a ++ "/" ++ s) ""
  | .plain s => s

/-- `url.href` / `url.toString()`: the WHATWG URL serializer. -/
def URLRec.href (u : URLRec) : String :=
  u.scheme ++ ":" ++
  (match u.host with
   | some h =>
     "//" ++
     (if u.username = "" && u.password = "" then ""
      else
        u.username ++ (if u.password = "" then "" else ":" ++ u.password) ++
        "@") ++
     h ++ (match u.port with | some p => ":" ++ toString p | none => "")
   | none => "") ++
  u.path.ser ++
  (match u.query with | some q => "?" ++ q | none => "") ++
  (match u.fragment with | some f => "#" ++ f | none => "")

/-- Host parsing for special schemes (a domain): percent-decode, reject
forbidden domain code points and non-ASCII (IDNA outside the model),
lowercase. -/
def parseDomainHost (l : List Char) : Option String :=
  let dec := pctDecode l
  if dec.any (fun c => isForbiddenDomainChar c || c.toNat ≥ 0x80) then none
  else some (String.mk (lowerChars dec))

/-- Host parsing for non-special schemes: forbidden host code points are
rejected, everything else is kept (C0-encoded), case preserved. -/
def parsePlainHost (l : List Char) : Option String :=
  if l.any isForbiddenHostChar then none
  else some (String.mk (pctEncode c0CtlSet l))

/-- `[...]` IP literal: kept verbatim when the bracket content is made of
hex digits, colons and dots (full IPv6 validation outside the model). -/
def parseBracketHost (inner : List Char) : Option String :=
  if inner ≠ [] &&
      inner.all (fun c => isHexDigitCh c || c = ':' || c = '.') then
    some (String.mk ('[' :: inner ++ [']']))
  else none

/-- Decimal value of a digit list. -/
def digitsToNat (l : List Char) : Nat :=
  l.foldl (fun a c => a * 10 + (c.toNat - '0'.toNat)) 0

/-- Port: empty means absent, digits only, at most 65535; a port equal to
the scheme's default is dropped. -/
def parsePort (dp : Option Nat) (l : List Char) : Option (Option Nat) :=
  if l = [] then some none
  else if l.all isAsciiDigit then
    let n := digitsToNat l
    if n ≤ 65535 then some (if dp = some n then none else some n) else none
  else none

/-- Host-with-port parsing (the part of the authority after userinfo). -/
def parseHostPort (special : Bool) (dp : Option Nat) (l : List Char) :
    Option (String × Option Nat) :=
  match l with
  | '[' :: rest =>
    match splitAtFirst ']' rest with
    | (_, none) => none
    | (inner, some after) =>
      match parseBracketHost inner with
      | none => none
      | some h =>
        match after with
        | [] => some (h, none)
        | ':' :: ps => (parsePort dp ps).map (fun p => (h, p))
        | _ => none
  | _ =>
    match splitAtFirst ':' l with
    | (hostCs, none) =>
      (if special then parseDomainHost hostCs else parsePlainHost hostCs).map
        (fun h => (h, none))
    | (hostCs, some ps) =>
      match (if special then parseDomainHost hostCs
             else parsePlainHost hostCs) with
      | none => none
      | some h => (parsePort dp ps).map (fun p => (h, p))

/-- Authority parsing: optional userinfo before the last `@`, then host and
port.  Userinfo with an empty host-port is a failure. -/
def parseAuthority (special : Bool) (dp : Option Nat) (auth : List Char) :
    Option (String × String × String × Option Nat) :=
  match splitAtLast '@' auth with
  | none =>
    (parseHostPort special dp auth).map (fun hp => ("", "", hp.1, hp.2))
  | some (ui, hp) =>
    if hp = [] then none
    else
      let up := splitAtFirst ':' ui
      let user := String.mk (pctEncode userinfoEncSet up.1)
      let pass := match up.2 with
        | none => ""
        | some pw => String.mk (pctEncode userinfoEncSet pw)
      (parseHostPort special dp hp).map (fun h => (user, pass, h.1, h.2))

/-- Split the path-query-fragment tail and build the serialized components.
`afterAuth` starts at the character that terminated the authority (if any). -/
def parsePathQF (special : Bool) (afterAuth : List Char) :
    List String × Option String × Option String :=
  let bh := splitAtFirst '#' afterAuth
  let frag := bh.2.map (fun fc => String.mk (pctEncode fragmentEncSet fc))
  let pq := splitAtFirst '?' bh.1
  let query := pq.2.map (fun qc =>
    String.mk (pctEncode (if special then specialQueryEncSet else queryEncSet) qc))
  let segs :=
    match pq.1 with
    | [] => if special then [[]] else []
    | _ :: rest =>
      remDots [] (splitOnPred (fun c => c = '/' || (special && c = '\\')) rest)
  (segs.map (fun sc => String.mk (pctEncode pathEncSet sc)), query, frag)

/-- Authority, host, port and path/query/fragment components of a
special-scheme URL after `scheme:` (shared by every special scheme). -/
def parseSpecialCore (dp : Option Nat) (rest : List Char) :
    Option ((String × String × String × Option Nat) ×
      (List String × Option String × Option String)) :=
  let rest' := rest.dropWhile (fun c => c = '/' || c = '\\')
  let sp := rest'.span (fun c => !(c = '/' || c = '\\' || c = '?' || c = '#'))
  match parseAuthority true dp sp.1 with
  | none => none
  | some (user, pass, host, port) =>
    if host = "" then none
    else some ((user, pass, host, port), parsePathQF true sp.2)

/-- Parse the remainder of a special-scheme URL after `scheme:`. -/
def parseSpecialRest (scheme : String) (dp : Option Nat) (rest : List Char) :
    Option URLRec :=
  (parseSpecialCore dp rest).map (fun c =>
    ⟨scheme, c.1.1, c.1.2.1, some c.1.2.2.1, c.1.2.2.2,
      .segs c.2.1, c.2.2.1, c.2.2.2⟩)

/-- Parse the remainder of a non-special-scheme URL after `scheme:`. -/
def parseNonSpecialRest (scheme : String) (rest : List Char) :
    Option URLRec :=
  match rest with
  | '/' :: '/' :: r =>
    let sp := r.span (fun c => !(c = '/' || c = '?' || c = '#'))
    match parseAuthority false none sp.1 with
    | none => none
    | some (user, pass, host, port) =>
      match parsePathQF false sp.2 with
      | (segs, query, frag) =>
        some ⟨scheme, user, pass, some host, port, .segs segs, query, frag⟩
  | _ =>
    let bh := splitAtFirst '#' rest
    let frag := bh.2.map (fun fc => String.mk (pctEncode fragmentEncSet fc))
    let pq := splitAtFirst '?' bh.1
    let query := pq.2.map (fun qc => String.mk (pctEncode queryEncSet qc))
    some ⟨scheme, "", "", none, none,
      .plain (String.mk (pctEncode c0CtlSet pq.1)), query, frag⟩

/-- `new URL(s)` (no base): `some` parsed record or `none` for a
`TypeError`. -/
def parseURL (s : String) : Option URLRec :=
  match schemeSplit (normChars s) with
  | none => none
  | some (sc, rest) =>
    let scheme := String.mk (lowerChars sc)
    match mapGet scheme specialSchemes with
    | some dp => parseSpecialRest scheme dp rest
    | none => parseNonSpecialRest scheme rest

/-- The scheme a raw input would parse with (used to state what "an input
with a scheme" means in the claims). -/
def extractScheme (s : String) : Option String :=
  (schemeSplit (normChars s)).map (fun p => String.mk (lowerChars p.1))

/-! ## SHA-256 (`node:crypto` `createHash("sha256")`)

Full executable SHA-256 over byte lists, words as `Nat` modulo `2^32`. -/

/-- Truncate to a 32-bit word. -/
def w32 (n : Nat) : Nat := n % 4294967296

/-- 32-bit right rotation. -/
def rotr32 (k n : Nat) : Nat := w32 (Nat.lor (n >>> k) (n <<< (32 - k)))

def shaCh (x y z : Nat) : Nat :=
  w32 (Nat.xor (Nat.land x y) (Nat.land (Nat.xor x 4294967295) z))

def shaMaj (x y z : Nat) : Nat :=
  w32 (Nat.xor (Nat.xor (Nat.land x y) (Nat.land x z)) (Nat.land y z))

def bigSigma0 (x : Nat) : Nat :=
  Nat.xor (Nat.xor (rotr32 2 x) (rotr32 13 x)) (rotr32 22 x)

def bigSigma1 (x : Nat) : Nat :=
  Nat.xor (Nat.xor (rotr32 6 x) (rotr32 11 x)) (rotr32 25 x)

def smallSigma0 (x : Nat) : Nat :=
  Nat.xor (Nat.xor (rotr32 7 x) (rotr32 18 x)) (w32 x >>> 3)

def smallSigma1 (x : Nat) : Nat :=
  Nat.xor (Nat.xor (rotr32 17 x) (rotr32 19 x)) (w32 x >>> 10)

def sha256K : List Nat :=
  [1116352408, 1899447441, 3049323471, 3921009573, 961987163,
   1508970993, 2453635748, 2870763221, 3624381080, 310598401,
   607225278, 1426881987, 1925078388, 2162078206, 2614888103,
   3248222580, 3835390401, 4022224774, 264347078, 604807628,
   770255983, 1249150122, 1555081692, 1996064986, 2554220882,
   2821834349, 2952996808, 3210313671, 3336571891, 3584528711,
   113926993, 338241895, 666307205, 773529912, 1294757372,
   1396182291, 1695183700, 1986661051, 2177026350, 2456956037,
   2730485921, 2820302411, 3259730800, 3345764771, 3516065817,
   3600352804, 4094571909, 275423344, 430227734, 506948616,
   659060556, 883997877, 958139571, 1322822218, 1537002063,
   1747873779, 1955562222, 2024104815, 2227730452, 2361852424,
   2428436474, 2756734187, 3204031479, 3329325298]

/-- Big-endian 8-byte encoding of the bit length. -/
def be64 (n : Nat) : List Nat :=
  [n / 2 ^ 56 % 256, n / 2 ^ 48 % 256, n / 2 ^ 40 % 256, n / 2 ^ 32 % 256,
   n / 2 ^ 24 % 256, n / 2 ^ 16 % 256, n / 2 ^ 8 % 256, n % 256]

/-- SHA-256 padding: `0x80`, zeros to 56 mod 64, then the 64-bit big-endian
bit length. -/
def shaPad (msg : List Nat) : List Nat :=
  msg ++ 0x80 :: List.replicate ((119 - msg.length % 64) % 64) 0 ++
    be64 (8 * msg.length)

/-- Group bytes into big-endian 32-bit words. -/
def beWords : List Nat → List Nat
  | b0 :: b1 :: b2 :: b3 :: rest =>
    (b0 * 2 ^ 24 + b1 * 2 ^ 16 + b2 * 2 ^ 8 + b3) :: beWords rest
  | _ => []

/-- Split into 64-byte chunks (`n` bounds the number of chunks). -/
def chunks64Go : Nat → List Nat → List (List Nat)
  | 0, _ => []
  | _, [] => []
  | n + 1, b :: l => (b :: l).take 64 :: chunks64Go n ((b :: l).drop 64)

/-- Split into 64-byte chunks. -/
def chunks64 (l : List Nat) : List (List Nat) := chunks64Go l.length l

/-- Message schedule: extend 16 words to 64. -/
def extendW (ws : Array Nat) : Array Nat :=
  (List.range 48).foldl
    (fun a i =>
      a.push (w32 (smallSigma1 (a.getD (i + 14) 0) + a.getD (i + 9) 0 +
        smallSigma0 (a.getD (i + 1) 0) + a.getD i 0)))
    ws

/-- One round of the compression function over the running 8-word state. -/
def shaRound (st : List Nat) (kw : Nat × Nat) : List Nat :=
  match st with
  | [a, b, c, d, e, f, g, h] =>
    let t1 := w32 (h + bigSigma1 e + shaCh e f g + kw.1 + kw.2)
    let t2 := w32 (bigSigma0 a + shaMaj a b c)
    [w32 (t1 + t2), a, b, c, w32 (d + t1), e, f, g]
  | other => other

/-- Compress one 64-byte chunk into the hash state. -/
def shaChunk (h : List Nat) (chunk : List Nat) : List Nat :=
  let ws := extendW (Array.mk (beWords chunk))
  let st := (sha256K.zip ws.toList).foldl shaRound h
  (h.zip st).map (fun p => w32 (p.1 + p.2))

/-- SHA-256 of a byte list, as 32 output bytes. -/
def sha256Bytes (msg : List Nat) : List Nat :=
  let h0 : List Nat :=
    [1779033703, 3144134277, 1013904242, 2773480762,
     1359893119, 2600822924, 528734635, 1541459225]
  ((chunks64 (shaPad msg)).foldl shaChunk h0).flatMap
    (fun wd => [wd / 2 ^ 24 % 256, wd / 2 ^ 16 % 256, wd / 2 ^ 8 % 256,
      wd % 256])

/-- Lowercase hex string of a byte list (`digest("hex")`). -/
def toHexStr (bytes : List Nat) : String :=
  String.mk (bytes.flatMap (fun b => [hexDigitL (b / 16), hexDigitL (b % 16)]))

/-! ## The link normalizer (`normalizeUrl` in the client page source) -/

/-- `VALID_PROTOCOLS = new Set(["http:", "https:"])`. -/
def VALID_PROTOCOLS : List String := ["http:", "https:"]

/-- The test `/^https?:\/\//i.test(trimmed)`: a case-insensitive
`http://` or `https://` start. -/
def hasHttpSchemeStart (t : String) : Bool :=
  match lowerChars t.data with
  | 'h' :: 't' :: 't' :: 'p' :: ':' :: '/' :: '/' :: _ => true
  | 'h' :: 't' :: 't' :: 'p' :: 's' :: ':' :: '/' :: '/' :: _ => true
  | _ => false

/-- `withProtocol` inside `normalizeUrl`: prepend `https://` when the input
does not already start with an http(s) scheme. -/
def withProtocol (t : String) : String :=
  if hasHttpSchemeStart t then t else "https://" ++ t

/-- `normalizeUrl(raw)` from the client page source: trim, reject empty,
default the scheme to `https`, parse with `new URL`, reject protocols
outside `VALID_PROTOCOLS`, and return `parsed.toString()`. -/
def normalizeUrl (raw : String) : Option String :=
  let trimmed := jsTrim raw
  if trimmed = "" then none
  else
    match parseURL (withProtocol trimmed) with
    | none => none
    | some parsed =>
      if VALID_PROTOCOLS.contains parsed.protocol then some parsed.href
      else none

/-! ## Data model: `analytics_events` rows and the check constraint -/

/-- JSON values appearing in an event payload
(`Record<string, string | number | null>`). -/
inductive JsonVal where
  | str (s : String)
  | num (n : Int)
  | nullV
deriving DecidableEq, Repr

/-- A payload map. -/
def Payload : Type := List (String × JsonVal)

instance : DecidableEq Payload := by
  unfold Payload
  infer_instance

instance : Repr Payload := by
  unfold Payload
  infer_instance

/-- A persisted `analytics_events` row (the generated `id` column is an
opaque unique key with no behavior and is not modelled). `created_at` is the
server-assigned insert time in epoch milliseconds. -/
structure Row where
  created_at : Nat
  event_type : String
  session_id : String
  payload : Payload
  ip_hash : String
  user_agent : Option String
  referrer : Option String
deriving DecidableEq, Repr

/-- The three values allowed by the schema's check constraint
`event_type in ('page_visit', 'qr_generated', 'qr_downloaded')`. -/
def validEventTypes : List String := ["page_visit", "qr_generated", "qr_downloaded"]

/-- An insert into `public.analytics_events`: the check constraint on
`event_type` rejects the row (the query returns an error and the table is
unchanged), otherwise the row is appended. -/
def dbInsert (rows : List Row) (r : Row) : Option (List Row) :=
  if validEventTypes.contains r.event_type then some (rows ++ [r]) else none

/-! ## The ingestion endpoint (`POST` in `route.ts`) -/

/-- The `EventType` union type of the sources:
`"page_visit" | "qr_generated" | "qr_downloaded"`. -/
inductive EventType where
  | page_visit
  | qr_generated
  | qr_downloaded
deriving DecidableEq, Repr

/-- The string literal a member of the `EventType` union denotes. -/
def EventType.toDbString : EventType → String
  | .page_visit => "page_visit"
  | .qr_generated => "qr_generated"
  | .qr_downloaded => "qr_downloaded"

/-- The request body interface `AnalyticsBody` of `route.ts`: every field is
optional (`eventType?`, `sessionId?`, `payload?`). -/
structure AnalyticsBody where
  eventType : Option EventType
  sessionId : Option String
  payload : Option Payload
deriving DecidableEq, Repr

/-- The request headers the endpoint reads. -/
structure PostRequest where
  xForwardedFor : Option String
  userAgent : Option String
  referer : Option String
deriving DecidableEq, Repr

/-- JS `s.split(",")`: split on every comma, keeping empty pieces. -/
def jsSplitComma (s : String) : List String :=
  (splitOnPred (fun c => c = ',') s.data).map String.mk

/-- `readIpAddress`: first comma-separated value of `x-forwarded-for`,
trimmed, or `"unknown"` when the header is absent (or empty, which is falsy
in JS). -/
def readIpAddress (req : PostRequest) : String :=
  match req.xForwardedFor with
  | none => "unknown"
  | some s => if s = "" then "unknown" else jsTrim ((jsSplitComma s).headD "")

/-- `hashIpAddress`: hex SHA-256 digest of the address string. -/
def hashIpAddress (ip : String) : String :=
  toHexStr (sha256Bytes (strUtf8 ip))

/-- The endpoint's JSON responses: `NextResponse.json({error}, 400)`,
`NextResponse.json({error}, 500)`, and `NextResponse.json({ok, stored})`
(status 200). -/
inductive ApiResponse where
  | badRequest (error : String)
  | serverError (error : String)
  | okJson (stored : Bool)
deriving DecidableEq, Repr

/-- HTTP status of a response. -/
def ApiResponse.status : ApiResponse → Nat
  | .badRequest _ => 400
  | .serverError _ => 500
  | .okJson _ => 200

/-- The JS truthiness test `!body?.eventType || !body?.sessionId` fails
(i.e. the request passes validation) exactly when both fields are present
and the session id is a non-empty string.  (Every `EventType` member denotes
a non-empty string, hence is truthy whenever present.) -/
def requiredPresent (body : Option AnalyticsBody) : Bool :=
  match body with
  | none => false
  | some b =>
    match b.eventType, b.sessionId with
    | some _, some sid => sid ≠ ""
    | _, _ => false

/-- `POST(request)` of `route.ts`.

* `body` is the result of `request.json().catch(() => null)`: `none` models
  a JSON parse failure (the catch maps it to `null`).
* `db` is the Supabase backend: `none` when `getSupabaseAdminClient()`
  returns `null` (environment not configured), otherwise the current table.
* `now` is the server time at the insert, taken by the `created_at` default.

Returns the response and the resulting backend state. -/
def POST (body : Option AnalyticsBody) (req : PostRequest)
    (db : Option (List Row)) (now : Nat) : ApiResponse × Option (List Row) :=
  match body with
  | none => (.badRequest "Invalid analytics payload.", db)
  | some b =>
    match b.eventType, b.sessionId with
    | some et, some sid =>
      if sid = "" then (.badRequest "Invalid analytics payload.", db)
      else
        match db with
        | none => (.okJson false, none)
        | some rows =>
          let row : Row :=
            { created_at := now
              event_type := et.toDbString
              session_id := sid
              payload := b.payload.getD []
              ip_hash := hashIpAddress (readIpAddress req)
              user_agent := some ((req.userAgent).getD "unknown")
              referrer := req.referer }
          match dbInsert rows row with
          | none => (.serverError "Failed to store analytics.", db)
          | some rows' => (.okJson true, some rows')
    | _, _ => (.badRequest "Invalid analytics payload.", db)

/-! ## The admin dashboard (`AdminPage` and helpers in the admin source) -/

def msPerDay : Nat := 86400000

/-- The UTC calendar day of an epoch-millisecond instant.  The source uses
`toISOString().slice(0, 10)` / `created_at.slice(0, 10)`; the ISO date
string is in bijection with this day number. -/
def dayOf (t : Nat) : Nat := t / msPerDay

/-- `readDomain(value)`: `null` unless the value is a string with non-empty
trim; then `new URL(value).hostname`, or `null` when parsing throws. -/
def readDomain (value : Option JsonVal) : Option String :=
  match value with
  | some (.str s) =>
    if jsTrim s = "" then none else (parseURL s).map URLRec.hostname
  | _ => none

/-- `countByType(eventType, fromIso)`: the exact count over the whole table
of rows of the given kind with `created_at >= fromIso` (the Supabase
`count: "exact", head: true` query with `.eq` and `.gte` filters).  The
ISO-string comparison on `timestamptz` agrees with `≤` on instants. -/
def countByType (db : List Row) (eventType : String) (fromMs : Nat) : Nat :=
  (db.filter (fun r => r.event_type == eventType &&
    decide (fromMs ≤ r.created_at))).length

/-- The domain of a row counted by the domain tally: the row must have
`event_type === "qr_generated"` and `readDomain(row.payload?.destinationUrl)`
must be truthy (non-null and non-empty). -/
def genDomain (r : Row) : Option String :=
  if r.event_type = "qr_generated" then
    match readDomain (mapGet "destinationUrl" r.payload) with
    | none => none
    | some d => if d = "" then none else some d
  else none

/-- The sequence of counted domains of a row page, in page order. -/
def domainSeq (rows : List Row) : List String := rows.filterMap genDomain

/-- The `domainCounts` map of `AdminPage`: for each loaded row of kind
`qr_generated` with a truthy domain, increment the domain's count
(`domainCounts.get(domain) ?? 0` then `set(domain, current + 1)`). -/
def domainCountsOf (rows : List Row) : List (String × Nat) :=
  rows.foldl
    (fun m r =>
      match genDomain r with
      | none => m
      | some d => mapSet d ((mapGet d m).getD 0 + 1) m)
    []

/-- The comparator of `topDomains` (`(a, b) => b[1] - a[1]`, i.e. sort by
descending count). -/
def byCountDesc (a b : String × Nat) : Prop := b.2 ≤ a.2

instance : DecidableRel byCountDesc := by
  unfold byCountDesc
  infer_instance

/-- `topDomains`: the map entries sorted by `(a, b) => b[1] - a[1]`
(descending count; JS `Array.prototype.sort` is stable, modelled by a stable
insertion sort), then `slice(0, 5)`. -/
def topDomainsOf (rows : List Row) : List (String × Nat) :=
  ((domainCountsOf rows).insertionSort byCountDesc).take 5

/-- The `dateBuckets` map right after the first loop of `AdminPage`: one
zero entry per day `last14Days + index` for `index = 0 .. 13`, in insertion
order. -/
def mkDateBuckets (last14 : Nat) : List (Nat × Nat) :=
  (List.range 14).foldl
    (fun m idx => mapSet (dayOf (last14 + idx * msPerDay)) 0 m) []

/-- The second loop of `AdminPage`: bucket each loaded row by its creation
day, skipping days outside the prepared window
(`if (!dateBuckets.has(day)) continue`). -/
def fillBuckets (rows : List Row) (buckets : List (Nat × Nat)) :
    List (Nat × Nat) :=
  rows.foldl
    (fun m r =>
      match mapGet (dayOf r.created_at) m with
      | none => m
      | some c => mapSet (dayOf r.created_at) (c + 1) m)
    buckets

/-- The `trend` array of `AdminPage`: the filled buckets in insertion
(= chronological) order.  `now` is the request time; `last14Days` is
`now` shifted back 13 days (`setDate(getDate() - 13)` keeps the time of
day, i.e. subtracts exactly 13 days in UTC). -/
def trendOf (now : Nat) (rows : List Row) : List (Nat × Nat) :=
  fillBuckets rows (mkDateBuckets (now - 13 * msPerDay))

/-- A `searchParams` value: `string | string[]` (an absent key is
`undefined`). -/
inductive ParamVal where
  | str (s : String)
  | arr (l : List String)
deriving DecidableEq, Repr

/-- The parsed `searchParams` record. -/
def Params : Type := List (String × ParamVal)

/-- `Array.isArray(params.key) ? params.key[0] : params.key` (an empty array
indexes to `undefined`). -/
def providedKey (params : Params) : Option String :=
  match mapGet "key" params with
  | none => none
  | some (.str s) => some s
  | some (.arr l) => l.head?

/-- The environment of the admin page: `ADMIN_DASHBOARD_KEY` and whether the
Supabase values are set. -/
structure AdminEnv where
  adminDashboardKey : Option String
  supabaseConfigured : Bool
deriving DecidableEq, Repr

/-- `const isAuthorized = !expectedKey || providedKey === expectedKey`
(an unset or empty `ADMIN_DASHBOARD_KEY` is falsy, so the page is open). -/
def isAuthorized (env : AdminEnv) (params : Params) : Bool :=
  match env.adminDashboardKey with
  | none => true
  | some k => if k = "" then true else providedKey params == some k

/-- Row ordering of the recent-events query
(`order("created_at", { ascending: false }).limit(120)`): newest first.
SQL leaves the order of equal timestamps unspecified; the model picks a
stable descending sort. -/
def recentPage (db : List Row) : List Row :=
  (db.insertionSort (fun a b => b.created_at ≤ a.created_at)).take 120

/-- The data rendered by the dashboard branch of `AdminPage`. -/
structure DashboardData where
  totalEvents : Nat
  uniqueSessions : Nat
  pageVisits14d : Nat
  generated14d : Nat
  downloaded14d : Nat
  topDomains : List (String × Nat)
  trend : List (Nat × Nat)
  recent : List Row
deriving DecidableEq, Repr

/-- The four pages `AdminPage` can render.  Only `dashboard` carries any
analytics data. -/
inductive AdminView where
  | accessRequired
  | configMissing
  | loadError (msg : String)
  | dashboard (d : DashboardData)
deriving DecidableEq, Repr

/-- The body of `AdminPage` after the access check: configuration check,
recent-rows query (whose transient outcome is the `fetchError` input),
then the aggregations.  `now` is the request time in epoch ms. -/
def adminContent (env : AdminEnv) (db : List Row) (fetchError : Option String)
    (now : Nat) : AdminView :=
  if !env.supabaseConfigured then .configMissing
  else
    match fetchError with
    | some msg => .loadError msg
    | none =>
      let fromMs := now - 13 * msPerDay
      let rows := recentPage db
      .dashboard
        { totalEvents := rows.length
          uniqueSessions := (firstOccs (rows.map (fun r => r.session_id))).length
          pageVisits14d := countByType db "page_visit" fromMs
          generated14d := countByType db "qr_generated" fromMs
          downloaded14d := countByType db "qr_downloaded" fromMs
          topDomains := topDomainsOf rows
          trend := trendOf now rows
          recent := rows.take 20 }

/-- `AdminPage`: the access gate, then the content. -/
def AdminPage (env : AdminEnv) (params : Params) (db : List Row)
    (fetchError : Option String) (now : Nat) : AdminView :=
  if isAuthorized env params then adminContent env db fetchError now
  else .accessRequired

/-! ## The client event emitter and its call sites (`page.tsx` source)

`trackEvent` posts to `/api/analytics` inside `try { await fetch(...) }
catch { }`: every outcome of the fetch is swallowed.  The three call sites
differ in whether the calling flow awaits the emitter:

* page visit (initial `useEffect`): `void trackEvent("page_visit", ...)` —
  not awaited;
* `onGenerate`: `await trackEvent("qr_generated", ...)` — awaited, after
  the QR outputs are rendered;
* `onDownloadPng` / `onDownloadSvg`: `await trackEvent("qr_downloaded",
  ...)` — awaited, after the download click.

The flows are modelled as the ordered step lists below; the `awaited` flag
on an emit step records whether the source awaits that `trackEvent` call. -/

/-- Outcome of `trackEvent`: the `try`/`catch` swallows every fetch
outcome, so the emitter never throws into the calling flow. -/
def trackEventOutcome (fetchOutcome : Except String ApiResponse) :
    Except String Unit :=
  match fetchOutcome with
  | _ => .ok ()

/-- One observable step of a client flow. -/
inductive UiStep where
  | renderQr
  | showError
  | downloadClick
  | emitEvent (t : EventType) (awaited : Bool)
deriving DecidableEq, Repr

/-- The page-visit flow (initial `useEffect`): emit without awaiting. -/
def pageVisitFlow : List UiStep :=
  [.emitEvent .page_visit false]

/-- `onGenerate`: validation error, or render then an awaited emit (when a
session id exists). -/
def onGenerateFlow (rawLink : String) (sessionId : String) : List UiStep :=
  match normalizeUrl rawLink with
  | none => [.showError]
  | some _ =>
    [.renderQr] ++
      (if sessionId = "" then [] else [.emitEvent .qr_generated true])

/-- `onDownloadPng`: nothing without a rendered QR; otherwise the download
click then an awaited emit (when a session id exists). -/
def onDownloadPngFlow (qrPng : String) (sessionId : String) : List UiStep :=
  if qrPng = "" then []
  else
    [.downloadClick] ++
      (if sessionId = "" then [] else [.emitEvent .qr_downloaded true])

/-- `onDownloadSvg`: same shape as the PNG download. -/
def onDownloadSvgFlow (qrSvg : String) (sessionId : String) : List UiStep :=
  if qrSvg = "" then []
  else
    [.downloadClick] ++
      (if sessionId = "" then [] else [.emitEvent .qr_downloaded true])

/-! ## Derived notions used by the theorem statements -/

/-- Number of loaded rows created on day `k`. -/
def dayCount (rows : List Row) (k : Nat) : Nat :=
  (rows.filter (fun r => dayOf r.created_at == k)).length

/-- The ranking order the domain tally must satisfy relative to an entry
list: strictly larger count first, ties in entry order. -/
def rankRel (entries : List (String × Nat)) (a b : String × Nat) : Prop :=
  b.2 < a.2 ∨ (a.2 = b.2 ∧ [a, b].Sublist entries)

/-! ## Theorems -/

/-! ### Association-list map lemmas -/

theorem mapGet_cons {κ ν : Type} [DecidableEq κ] (k k' : κ) (v : ν)
    (t : List (κ × ν)) :
    mapGet k ((k', v) :: t) = if k = k' then some v else mapGet k t := rfl

theorem mapSet_cons {κ ν : Type} [DecidableEq κ] (k k' : κ) (v v' : ν)
    (t : List (κ × ν)) :
    mapSet k v ((k', v') :: t) =
      if k = k' then (k, v) :: t else (k', v') :: mapSet k v t := rfl

theorem mapGet_append_none {κ ν : Type} [DecidableEq κ] (k : κ)
    {a : List (κ × ν)} (b : List (κ × ν)) (h : mapGet k a = none) :
    mapGet k (a ++ b) = mapGet k b := by
  induction a with
  | nil => rfl
  | cons p t ih =>
    obtain ⟨k', v'⟩ := p
    rw [mapGet_cons] at h
    by_cases hk : k = k'
    · rw [if_pos hk] at h
      cases h
    · rw [if_neg hk] at h
      rw [List.cons_append, mapGet_cons, if_neg hk]
      exact ih h

theorem mapGet_append_some {κ ν : Type} [DecidableEq κ] (k : κ)
    {a : List (κ × ν)} (b : List (κ × ν)) {v : ν} (h : mapGet k a = some v) :
    mapGet k (a ++ b) = some v := by
  induction a with
  | nil => cases h
  | cons p t ih =>
    obtain ⟨k', v'⟩ := p
    rw [mapGet_cons] at h
    rw [List.cons_append, mapGet_cons]
    by_cases hk : k = k'
    · rw [if_pos hk] at h
      rw [if_pos hk]
      exact h
    · rw [if_neg hk] at h
      rw [if_neg hk]
      exact ih h

theorem mapSet_absent {κ ν : Type} [DecidableEq κ] (k : κ) (v : ν)
    {m : List (κ × ν)} (h : mapGet k m = none) :
    mapSet k v m = m ++ [(k, v)] := by
  induction m with
  | nil => rfl
  | cons p t ih =>
    obtain ⟨k', v'⟩ := p
    rw [mapGet_cons] at h
    by_cases hk : k = k'
    · rw [if_pos hk] at h
      cases h
    · rw [if_neg hk] at h
      rw [mapSet_cons, if_neg hk, List.cons_append, ih h]

/-! ### The 14-day trend buckets (claim C6) -/

theorem dayOf_add_mul (t i : Nat) :
    dayOf (t + i * msPerDay) = dayOf t + i := by
  unfold dayOf
  exact Nat.add_mul_div_right t i (by norm_num [msPerDay])

theorem mapGet_mapRange {ν : Type} (d0 n k : Nat) (f : Nat → ν) :
    mapGet k ((List.range n).map (fun i => (d0 + i, f i))) =
      if d0 ≤ k ∧ k < d0 + n then some (f (k - d0)) else none := by
  induction n with
  | zero =>
    rw [if_neg (by omega)]
    rfl
  | succ n ih =>
    rw [List.range_succ, List.map_append]
    by_cases h1 : d0 ≤ k ∧ k < d0 + n
    · rw [mapGet_append_some _ _ (by rw [ih, if_pos h1]), if_pos (by omega)]
    · rw [mapGet_append_none _ _ (by rw [ih, if_neg h1])]
      by_cases h2 : k = d0 + n
      · subst h2
        rw [if_pos (show d0 ≤ d0 + n ∧ d0 + n < d0 + (n + 1) by omega)]
        simp [mapGet_cons, Nat.add_sub_cancel_left]
      · simp only [List.map_cons, List.map_nil, mapGet_cons, if_neg h2,
          if_neg (show ¬(d0 ≤ k ∧ k < d0 + (n + 1)) by omega)]
        rfl

theorem mapSet_append_some {κ ν : Type} [DecidableEq κ] (k : κ) (v : ν)
    {a : List (κ × ν)} (b : List (κ × ν)) {w : ν} (h : mapGet k a = some w) :
    mapSet k v (a ++ b) = mapSet k v a ++ b := by
  induction a with
  | nil => cases h
  | cons p t ih =>
    obtain ⟨k', v'⟩ := p
    rw [mapGet_cons] at h
    rw [List.cons_append, mapSet_cons, mapSet_cons]
    by_cases hk : k = k'
    · rw [if_pos hk, if_pos hk, List.cons_append]
    · rw [if_neg hk] at h
      rw [if_neg hk, if_neg hk, List.cons_append, ih h]

theorem mapSet_append_none {κ ν : Type} [DecidableEq κ] (k : κ) (v : ν)
    {a : List (κ × ν)} (b : List (κ × ν)) (h : mapGet k a = none) :
    mapSet k v (a ++ b) = a ++ mapSet k v b := by
  induction a with
  | nil => rfl
  | cons p t ih =>
    obtain ⟨k', v'⟩ := p
    rw [mapGet_cons] at h
    by_cases hk : k = k'
    · rw [if_pos hk] at h
      cases h
    · rw [if_neg hk] at h
      rw [List.cons_append, mapSet_cons, if_neg hk, ih h, List.cons_append]

theorem mapSet_mapRange (d0 n j : Nat) (v : Nat) (f : Nat → Nat)
    (hj : j < n) :
    mapSet (d0 + j) v ((List.range n).map (fun i => (d0 + i, f i))) =
      (List.range n).map (fun i => (d0 + i, if i = j then v else f i)) := by
  induction n with
  | zero => omega
  | succ n ih =>
    rw [List.range_succ, List.map_append, List.map_append]
    by_cases h1 : j < n
    · have hget : mapGet (d0 + j)
          ((List.range n).map (fun i => (d0 + i, f i))) =
          some (f ((d0 + j) - d0)) := by
        rw [mapGet_mapRange, if_pos (by omega)]
      rw [mapSet_append_some _ _ _ hget, ih h1]
      simp only [List.map_cons, List.map_nil]
      rw [if_neg (by omega)]
    · have hn : j = n := by omega
      have hget : mapGet (d0 + j)
          ((List.range n).map (fun i => (d0 + i, f i))) = none := by
        rw [mapGet_mapRange, if_neg (by omega)]
      rw [mapSet_append_none _ _ _ hget]
      simp only [List.map_cons, List.map_nil, mapSet_cons]
      rw [if_pos (by omega), if_pos hn.symm]
      congr 1
      · apply List.map_congr_left
        intro i hi
        rw [List.mem_range] at hi
        rw [if_neg (by omega)]
      · subst hn
        rfl

theorem mkDateBuckets_eq (last14 : Nat) :
    mkDateBuckets last14 =
      (List.range 14).map (fun i => (dayOf last14 + i, 0)) := by
  have go : ∀ n, (List.range n).foldl
      (fun m idx => mapSet (dayOf (last14 + idx * msPerDay)) 0 m) [] =
      (List.range n).map (fun i => (dayOf last14 + i, 0)) := by
    intro n
    induction n with
    | zero => rfl
    | succ n ih =>
      rw [List.range_succ, List.foldl_append, List.map_append, ih]
      simp only [List.foldl_cons, List.foldl_nil, List.map_cons, List.map_nil]
      rw [dayOf_add_mul,
        mapSet_absent _ _ (by rw [mapGet_mapRange, if_neg (by omega)])]
  exact go 14

theorem dayCount_cons (r : Row) (rest : List Row) (k : Nat) :
    dayCount (r :: rest) k =
      (if dayOf r.created_at = k then 1 else 0) + dayCount rest k := by
  unfold dayCount
  by_cases h : dayOf r.created_at = k
  · simp [List.filter_cons, h]
    omega
  · simp [List.filter_cons, h]

theorem fillBuckets_cons (r : Row) (rest : List Row) (b : List (Nat × Nat)) :
    fillBuckets (r :: rest) b = fillBuckets rest
      (match mapGet (dayOf r.created_at) b with
       | none => b
       | some c => mapSet (dayOf r.created_at) (c + 1) b) := rfl

theorem fillBuckets_mapRange (rows : List Row) (d0 n : Nat) (f : Nat → Nat) :
    fillBuckets rows ((List.range n).map (fun i => (d0 + i, f i))) =
      (List.range n).map
        (fun i => (d0 + i, f i + dayCount rows (d0 + i))) := by
  induction rows generalizing f with
  | nil =>
    unfold fillBuckets
    simp only [List.foldl_nil]
    apply List.map_congr_left
    intro i _
    simp [dayCount]
  | cons r rest ih =>
    rw [fillBuckets_cons]
    by_cases h : d0 ≤ dayOf r.created_at ∧ dayOf r.created_at < d0 + n
    · obtain ⟨j, hjn, hjeq⟩ : ∃ j, j < n ∧ dayOf r.created_at = d0 + j :=
        ⟨dayOf r.created_at - d0, by omega, by omega⟩
      have hget : mapGet (dayOf r.created_at)
          ((List.range n).map (fun i => (d0 + i, f i))) = some (f j) := by
        rw [hjeq, mapGet_mapRange, if_pos (by omega), Nat.add_sub_cancel_left]
      rw [hget]
      show fillBuckets rest
        (mapSet (dayOf r.created_at) (f j + 1)
          ((List.range n).map (fun i => (d0 + i, f i)))) = _
      rw [hjeq, mapSet_mapRange d0 n j (f j + 1) f hjn,
        ih (fun i => if i = j then f j + 1 else f i)]
      apply List.map_congr_left
      intro i hi
      rw [List.mem_range] at hi
      simp only [Prod.mk.injEq, true_and]
      rw [dayCount_cons, hjeq]
      by_cases hij : i = j
      · rw [if_pos hij, if_pos (by omega)]
        subst hij
        omega
      · rw [if_neg hij, if_neg (by omega)]
        omega
    · have hget : mapGet (dayOf r.created_at)
          ((List.range n).map (fun i => (d0 + i, f i))) = none := by
        rw [mapGet_mapRange, if_neg h]
      rw [hget]
      show fillBuckets rest
        ((List.range n).map (fun i => (d0 + i, f i))) = _
      rw [ih f]
      apply List.map_congr_left
      intro i hi
      rw [List.mem_range] at hi
      simp only [Prod.mk.injEq, true_and]
      rw [dayCount_cons, if_neg (by omega)]
      omega

theorem trendOf_eq (now : Nat) (rows : List Row) :
    trendOf now rows = (List.range 14).map
      (fun i => (dayOf (now - 13 * msPerDay) + i,
        dayCount rows (dayOf (now - 13 * msPerDay) + i))) := by
  unfold trendOf
  rw [mkDateBuckets_eq, fillBuckets_mapRange]
  simp

theorem sum_map_add {α : Type} (l : List α) (f g : α → Nat) :
    (l.map (fun a => f a + g a)).sum = (l.map f).sum + (l.map g).sum := by
  induction l with
  | nil => rfl
  | cons x t ih =>
    simp only [List.map_cons, List.sum_cons, ih]
    omega

theorem sum_ite_hit (d0 n k : Nat) :
    ((List.range n).map (fun i => if d0 + i = k then 1 else 0)).sum =
      if d0 ≤ k ∧ k < d0 + n then 1 else 0 := by
  induction n with
  | zero =>
    rw [if_neg (by omega)]
    rfl
  | succ n ih =>
    rw [List.range_succ, List.map_append, List.sum_append, ih]
    simp only [List.map_cons, List.map_nil, List.sum_cons, List.sum_nil]
    by_cases h1 : d0 ≤ k ∧ k < d0 + n
    · rw [if_pos h1, if_neg (show ¬ d0 + n = k by omega), if_pos (by omega)]
      omega
    · rw [if_neg h1]
      by_cases h2 : d0 + n = k
      · rw [if_pos h2, if_pos (by omega)]
        omega
      · rw [if_neg h2, if_neg (by omega)]
        omega

theorem sum_dayCount (rows : List Row) (d0 n : Nat) :
    ((List.range n).map (fun i => dayCount rows (d0 + i))).sum =
      (rows.filter (fun r => decide (d0 ≤ dayOf r.created_at) &&
        decide (dayOf r.created_at < d0 + n))).length := by
  induction rows with
  | nil => simp [dayCount]
  | cons r rest ih =>
    have hpt : ∀ i ∈ List.range n, dayCount (r :: rest) (d0 + i) =
        (if d0 + i = dayOf r.created_at then 1 else 0) +
          dayCount rest (d0 + i) := by
      intro i _
      rw [dayCount_cons]
      by_cases h : dayOf r.created_at = d0 + i
      · rw [if_pos h, if_pos h.symm]
      · rw [if_neg h, if_neg (fun hc => h hc.symm)]
    rw [List.map_congr_left hpt,
      sum_map_add (List.range n) (fun i => if d0 + i = dayOf r.created_at then 1 else 0)
        (fun i => dayCount rest (d0 + i)),
      sum_ite_hit, ih, List.filter_cons]
    by_cases hb : (decide (d0 ≤ dayOf r.created_at) &&
        decide (dayOf r.created_at < d0 + n)) = true
    · have hP : d0 ≤ dayOf r.created_at ∧ dayOf r.created_at < d0 + n := by
        simpa [Bool.and_eq_true, decide_eq_true_eq] using hb
      rw [if_pos hb, if_pos hP]
      simp only [List.length_cons]
      omega
    · have hP : ¬(d0 ≤ dayOf r.created_at ∧ dayOf r.created_at < d0 + n) := by
        intro hc
        exact hb (by simp [Bool.and_eq_true, decide_eq_true_eq, hc.1, hc.2])
      rw [if_neg hb, if_neg hP]
      omega

/-- C6: for every loaded row page, the daily trend series has exactly 14
entries, one per calendar day of the trailing 14 days (the oldest bucket
13 days back, the newest bucket today), each entry carrying the number of
loaded rows created that day (zero when none), and the entries sum to the
number of loaded rows whose creation day falls inside the window. -/
theorem trend_series (now : Nat) (rows : List Row)
    (h13 : 13 * msPerDay ≤ now) :
    trendOf now rows = (List.range 14).map
      (fun i => (dayOf (now - 13 * msPerDay) + i,
        dayCount rows (dayOf (now - 13 * msPerDay) + i))) ∧
    (trendOf now rows).length = 14 ∧
    dayOf (now - 13 * msPerDay) + 13 = dayOf now ∧
    ((trendOf now rows).map Prod.snd).sum =
      (rows.filter (fun r =>
        decide (dayOf (now - 13 * msPerDay) ≤ dayOf r.created_at) &&
        decide (dayOf r.created_at < dayOf (now - 13 * msPerDay) + 14))).length := by
  refine ⟨trendOf_eq now rows, ?_, ?_, ?_⟩
  · rw [trendOf_eq]
    simp
  · have hnow : now = (now - 13 * msPerDay) + 13 * msPerDay := by omega
    conv_rhs => rw [hnow]
    rw [show (13 : Nat) * msPerDay = msPerDay * 13 by ring]
    unfold dayOf
    rw [Nat.add_mul_div_left _ _ (show 0 < msPerDay by norm_num [msPerDay])]
  · rw [trendOf_eq]
    have hm : ((List.range 14).map
        (fun i => (dayOf (now - 13 * msPerDay) + i,
          dayCount rows (dayOf (now - 13 * msPerDay) + i)))).map Prod.snd =
        (List.range 14).map
          (fun i => dayCount rows (dayOf (now - 13 * msPerDay) + i)) := by
      rw [List.map_map]
      rfl
    rw [hm, sum_dayCount]

/-- C6 witness. -/
theorem trend_series_witness :
    13 * msPerDay ≤ 13 * msPerDay ∧
      (trendOf (13 * msPerDay) []).length = 14 :=
  ⟨Nat.le_refl _, (trend_series (13 * msPerDay) [] (Nat.le_refl _)).2.1⟩

/-- C1: a request body missing the event kind or the session key gets a
400-class response and leaves the table untouched; a body carrying both
required fields, posted while the backend is configured, appends exactly
one row whose kind, session key and payload are the supplied values (the
payload defaulting to the empty map) and whose address column is the
SHA-256 hash of the caller address. -/
theorem post_ingestion_contract (body : Option AnalyticsBody)
    (req : PostRequest) (db0 : List Row) (now : Nat) :
    (requiredPresent body = false →
      POST body req (some db0) now =
        (ApiResponse.badRequest "Invalid analytics payload.", some db0) ∧
      (POST body req (some db0) now).1.status / 100 = 4) ∧
    (∀ b et sid, body = some b → b.eventType = some et →
      b.sessionId = some sid → sid ≠ "" →
      POST body req (some db0) now =
        (ApiResponse.okJson true,
         some (db0 ++
           [{ created_at := now, event_type := et.toDbString,
              session_id := sid, payload := b.payload.getD [],
              ip_hash := hashIpAddress (readIpAddress req),
              user_agent := some (req.userAgent.getD "unknown"),
              referrer := req.referer }]))) := by
  constructor
  · intro h
    have heq : POST body req (some db0) now =
        (ApiResponse.badRequest "Invalid analytics payload.", some db0) := by
      cases body with
      | none => rfl
      | some b =>
        cases het : b.eventType with
        | none => simp [POST, het]
        | some et =>
          cases hsid : b.sessionId with
          | none => simp [POST, het, hsid]
          | some sid =>
            have hsid0 : sid = "" := by
              by_contra hne
              simp [requiredPresent, het, hsid, hne] at h
            simp [POST, het, hsid, hsid0]
    exact ⟨heq, by simp [heq, ApiResponse.status]⟩
  · intro b et sid hb het hsid hne
    subst hb
    have hv : et.toDbString ∈ validEventTypes := by
      cases et <;> decide
    simp [POST, het, hsid, hne, dbInsert, hv]

/-- C1 witness: a concrete well-formed submission with a configured backend
stores exactly the supplied row. -/
theorem post_ingestion_contract_witness :
    POST
      (some { eventType := some EventType.qr_generated,
              sessionId := some "abc123",
              payload := some [("destinationUrl", .str "https://example.com")] })
      { xForwardedFor := some "1.2.3.4", userAgent := some "ua",
        referer := none }
      (some []) 1700000000000 =
      (ApiResponse.okJson true,
       some
         [{ created_at := 1700000000000, event_type := "qr_generated",
            session_id := "abc123",
            payload := [("destinationUrl", .str "https://example.com")],
            ip_hash := hashIpAddress (readIpAddress
              { xForwardedFor := some "1.2.3.4", userAgent := some "ua",
                referer := none }),
            user_agent := some "ua", referrer := none }]) := by
  have h := (post_ingestion_contract
    (some { eventType := some EventType.qr_generated,
            sessionId := some "abc123",
            payload := some [("destinationUrl", .str "https://example.com")] })
    { xForwardedFor := some "1.2.3.4", userAgent := some "ua", referer := none }
    [] 1700000000000).2
    { eventType := some EventType.qr_generated, sessionId := some "abc123",
      payload := some [("destinationUrl", .str "https://example.com")] }
    EventType.qr_generated "abc123" rfl rfl rfl (by decide)
  simpa using h

/-- C9: a well-formed submission received while the Supabase backend is not
configured is answered with success and a `stored: false` indicator, and
nothing is written anywhere. -/
theorem post_unconfigured_noop (b : AnalyticsBody) (req : PostRequest)
    (now : Nat) (h : requiredPresent (some b) = true) :
    POST (some b) req none now = (ApiResponse.okJson false, none) := by
  cases het : b.eventType with
  | none => simp [requiredPresent, het] at h
  | some et =>
    cases hsid : b.sessionId with
    | none => simp [requiredPresent, het, hsid] at h
    | some sid =>
      have hne : ¬ sid = "" := by
        intro hsid0
        simp [requiredPresent, het, hsid, hsid0] at h
      simp [POST, het, hsid, hne]

/-- C9 witness. -/
theorem post_unconfigured_noop_witness :
    requiredPresent
      (some { eventType := some EventType.page_visit,
              sessionId := some "s1", payload := none }) = true ∧
    POST
      (some { eventType := some EventType.page_visit,
              sessionId := some "s1", payload := none })
      { xForwardedFor := none, userAgent := none, referer := none }
      none 0 = (ApiResponse.okJson false, none) :=
  ⟨by decide,
   post_unconfigured_noop
     { eventType := some EventType.page_visit, sessionId := some "s1",
       payload := none }
     { xForwardedFor := none, userAgent := none, referer := none } 0
     (by decide)⟩

/-- C10: a POST whose body fails JSON parsing (the catch maps it to `null`)
gets the 400 response and writes nothing, exactly like a request missing
its required fields. -/
theorem post_bad_json (req : PostRequest) (db : Option (List Row))
    (now : Nat) :
    POST none req db now =
      (ApiResponse.badRequest "Invalid analytics payload.", db) ∧
    (POST none req db now).1.status = 400 ∧
    (∀ b, requiredPresent (some b) = false →
      POST (some b) req db now = POST none req db now) := by
  refine ⟨rfl, rfl, ?_⟩
  intro b h
  cases het : b.eventType with
  | none => simp [POST, het]
  | some et =>
    cases hsid : b.sessionId with
    | none => simp [POST, het, hsid]
    | some sid =>
      have hsid0 : sid = "" := by
        by_contra hne
        simp [requiredPresent, het, hsid, hne] at h
      simp [POST, het, hsid, hsid0]

/-- C10 witness: a body with a blank session key is handled like the
absent body. -/
theorem post_bad_json_witness :
    requiredPresent
      (some { eventType := some EventType.page_visit,
              sessionId := some "", payload := none }) = false ∧
    POST
      (some { eventType := some EventType.page_visit,
              sessionId := some "", payload := none })
      { xForwardedFor := none, userAgent := none, referer := none }
      (some []) 0 =
      POST none
        { xForwardedFor := none, userAgent := none, referer := none }
        (some []) 0 :=
  ⟨by decide,
   (post_bad_json { xForwardedFor := none, userAgent := none, referer := none }
     (some []) 0).2.2
     { eventType := some EventType.page_visit, sessionId := some "",
       payload := none }
     (by decide)⟩

/-- C4: the event kind is a closed enumeration.  The schema's check
constraint rejects any insert whose kind is outside the three enumerated
values; a successful insert appends exactly the given row with a valid
kind; and the endpoint preserves the invariant that every persisted row's
kind is one of the three values. -/
theorem event_kind_closed (rows : List Row) (r : Row)
    (body : Option AnalyticsBody) (req : PostRequest) (db0 : List Row)
    (now : Nat) :
    (validEventTypes.contains r.event_type = false → dbInsert rows r = none) ∧
    (∀ rows', dbInsert rows r = some rows' →
      validEventTypes.contains r.event_type = true ∧ rows' = rows ++ [r]) ∧
    (∀ db', (POST body req (some db0) now).2 = some db' →
      (∀ x ∈ db0, x.event_type ∈ validEventTypes) →
      ∀ x ∈ db', x.event_type ∈ validEventTypes) := by
  refine ⟨?_, ?_, ?_⟩
  · intro h
    unfold dbInsert
    rw [h]
    simp
  · intro rows' h
    unfold dbInsert at h
    split at h
    next hv =>
      injection h with h
      exact ⟨hv, h.symm⟩
    next => cases h
  · intro db' hdb hinv x hx
    cases body with
    | none =>
      simp [POST] at hdb
      subst hdb
      exact hinv x hx
    | some b =>
      cases het : b.eventType with
      | none =>
        simp [POST, het] at hdb
        subst hdb
        exact hinv x hx
      | some et =>
        cases hsid : b.sessionId with
        | none =>
          simp [POST, het, hsid] at hdb
          subst hdb
          exact hinv x hx
        | some sid =>
          by_cases hsid0 : sid = ""
          · simp [POST, het, hsid, hsid0] at hdb
            subst hdb
            exact hinv x hx
          · have hv : et.toDbString ∈ validEventTypes := by
              cases et <;> decide
            simp [POST, het, hsid, hsid0, dbInsert, hv] at hdb
            subst hdb
            rcases List.mem_append.mp hx with hx0 | hx1
            · exact hinv x hx0
            · have hxe : x.event_type = et.toDbString := by
                simp at hx1
                rw [hx1]
              rw [hxe]
              exact hv

/-- C4 witness: a row with an out-of-enumeration kind is rejected by the
check constraint. -/
theorem event_kind_closed_witness :
    validEventTypes.contains "bogus_kind" = false ∧
    dbInsert [] ⟨0, "bogus_kind", "s", [], "h", none, none⟩ = none :=
  ⟨by decide,
   (event_kind_closed [] ⟨0, "bogus_kind", "s", [], "h", none, none⟩ none
      { xForwardedFor := none, userAgent := none, referer := none } [] 0).1
     (by decide)⟩

/-- C5: with a non-empty `ADMIN_DASHBOARD_KEY` configured, any request whose
`key` query parameter does not match renders the access-required page — a
constructor carrying no analytics data — no matter what other parameters
are supplied (the page reads only `key`); with no key configured the gate
always passes. -/
theorem dashboard_gate (env : AdminEnv) (params p2 : Params) (db : List Row)
    (e : Option String) (now : Nat) :
    (∀ k, env.adminDashboardKey = some k → k ≠ "" →
      ¬ providedKey params = some k →
      AdminPage env params db e now = AdminView.accessRequired) ∧
    (env.adminDashboardKey = none ∨ env.adminDashboardKey = some "" →
      AdminPage env params db e now = adminContent env db e now) ∧
    (mapGet "key" params = mapGet "key" p2 →
      AdminPage env params db e now = AdminPage env p2 db e now) := by
  refine ⟨?_, ?_, ?_⟩
  · intro k hk hne hneq
    have hauth : isAuthorized env params = false := by
      simp [isAuthorized, hk, hne, hneq]
    simp [AdminPage, hauth]
  · intro hk
    have hauth : isAuthorized env params = true := by
      rcases hk with hk | hk <;> simp [isAuthorized, hk]
    simp [AdminPage, hauth]
  · intro hkeys
    have hp : providedKey params = providedKey p2 := by
      unfold providedKey
      rw [hkeys]
    unfold AdminPage isAuthorized
    rw [hp]

/-- C5 witness: a configured key with a missing query parameter yields the
access-required page; an unconfigured key always shows the content. -/
theorem dashboard_gate_witness :
    AdminPage ⟨some "secret", true⟩ [] [] none 0 =
      AdminView.accessRequired ∧
    AdminPage ⟨none, true⟩ [("other", .str "x")] [] none 0 =
      adminContent ⟨none, true⟩ [] none 0 :=
  ⟨(dashboard_gate ⟨some "secret", true⟩ [] [] [] none 0).1 "secret" rfl
      (by decide) (by decide),
   (dashboard_gate ⟨none, true⟩ [("other", .str "x")] [] [] none 0).2.1
     (Or.inl rfl)⟩

/-- C3 counterexample: the claim says no tracked event's emission is awaited
by the primary user flow, but in the source `onGenerate` runs
`await trackEvent("qr_generated", ...)` and both download handlers run
`await trackEvent("qr_downloaded", ...)`; only the page-visit emission is
un-awaited (`void trackEvent(...)`). -/
theorem emitter_await_counterexample :
    UiStep.emitEvent .qr_generated true ∈
      onGenerateFlow "https://example.com" "abc" ∧
    UiStep.emitEvent .qr_downloaded true ∈ onDownloadPngFlow "data:png" "abc" ∧
    UiStep.emitEvent .qr_downloaded true ∈ onDownloadSvgFlow "<svg>" "abc" := by
  refine ⟨?_, by decide, by decide⟩
  have h : normalizeUrl "https://example.com" = some "https://example.com/" := by
    decide
  simp [onGenerateFlow, h]

/-- C3 amended: only the page-visit emission is fire-and-forget; the
code-generated and code-downloaded flows do await the emitter — though only
after the QR render / download click step — and the emitter swallows every
fetch outcome, so it never throws into a calling flow. -/
theorem emitter_flow_structure (rawLink sessionId qrPng qrSvg : String) :
    pageVisitFlow = [UiStep.emitEvent EventType.page_visit false] ∧
    (∀ t a, UiStep.emitEvent t a ∈ onGenerateFlow rawLink sessionId →
      t = EventType.qr_generated ∧ a = true ∧
      [UiStep.renderQr, UiStep.emitEvent t a].Sublist
        (onGenerateFlow rawLink sessionId)) ∧
    (∀ t a, UiStep.emitEvent t a ∈ onDownloadPngFlow qrPng sessionId →
      t = EventType.qr_downloaded ∧ a = true ∧
      [UiStep.downloadClick, UiStep.emitEvent t a].Sublist
        (onDownloadPngFlow qrPng sessionId)) ∧
    (∀ t a, UiStep.emitEvent t a ∈ onDownloadSvgFlow qrSvg sessionId →
      t = EventType.qr_downloaded ∧ a = true ∧
      [UiStep.downloadClick, UiStep.emitEvent t a].Sublist
        (onDownloadSvgFlow qrSvg sessionId)) ∧
    (∀ o, trackEventOutcome o = Except.ok ()) := by
  refine ⟨rfl, ?_, ?_, ?_, fun o => rfl⟩
  · intro t a hmem
    cases hn : normalizeUrl rawLink with
    | none => simp [onGenerateFlow, hn] at hmem
    | some u =>
      by_cases hs : sessionId = ""
      · simp [onGenerateFlow, hn, hs] at hmem
      · have hflow : onGenerateFlow rawLink sessionId =
            [UiStep.renderQr, UiStep.emitEvent EventType.qr_generated true] := by
          simp [onGenerateFlow, hn, hs]
        rw [hflow] at hmem ⊢
        obtain ⟨ht, ha⟩ : t = EventType.qr_generated ∧ a = true := by
          simpa using hmem
        subst ht
        subst ha
        exact ⟨rfl, rfl, List.Sublist.refl _⟩
  · intro t a hmem
    by_cases hq : qrPng = ""
    · simp [onDownloadPngFlow, hq] at hmem
    · by_cases hs : sessionId = ""
      · simp [onDownloadPngFlow, hq, hs] at hmem
      · have hflow : onDownloadPngFlow qrPng sessionId =
            [UiStep.downloadClick,
             UiStep.emitEvent EventType.qr_downloaded true] := by
          simp [onDownloadPngFlow, hq, hs]
        rw [hflow] at hmem ⊢
        obtain ⟨ht, ha⟩ : t = EventType.qr_downloaded ∧ a = true := by
          simpa using hmem
        subst ht
        subst ha
        exact ⟨rfl, rfl, List.Sublist.refl _⟩
  · intro t a hmem
    by_cases hq : qrSvg = ""
    · simp [onDownloadSvgFlow, hq] at hmem
    · by_cases hs : sessionId = ""
      · simp [onDownloadSvgFlow, hq, hs] at hmem
      · have hflow : onDownloadSvgFlow qrSvg sessionId =
            [UiStep.downloadClick,
             UiStep.emitEvent EventType.qr_downloaded true] := by
          simp [onDownloadSvgFlow, hq, hs]
        rw [hflow] at hmem ⊢
        obtain ⟨ht, ha⟩ : t = EventType.qr_downloaded ∧ a = true := by
          simpa using hmem
        subst ht
        subst ha
        exact ⟨rfl, rfl, List.Sublist.refl _⟩

/-- C3 amended witness: the awaited emit of the generate flow happens after
the render step. -/
theorem emitter_flow_structure_witness :
    [UiStep.renderQr, UiStep.emitEvent EventType.qr_generated true].Sublist
      (onGenerateFlow "https://example.com" "abc") :=
  ((emitter_flow_structure "https://example.com" "abc" "p" "s").2.1
    EventType.qr_generated true
    (by
      have h : normalizeUrl "https://example.com" = some "https://example.com/" := by
        decide
      simp [onGenerateFlow, h])).2.2

/-- C8: for every dashboard render, the three per-kind counts are exact
aggregates over the whole table, counting rows of the kind created at or
after `now - 13 days` where `now` is the view-request time — not derived
from the 120-row recent page. -/
theorem counts_exact (env : AdminEnv) (params : Params) (db : List Row)
    (now : Nat) (hAuth : isAuthorized env params = true)
    (hCfg : env.supabaseConfigured = true) :
    ∃ d, AdminPage env params db none now = AdminView.dashboard d ∧
      d.pageVisits14d = (db.filter (fun r => r.event_type == "page_visit" &&
        decide (now - 13 * msPerDay ≤ r.created_at))).length ∧
      d.generated14d = (db.filter (fun r => r.event_type == "qr_generated" &&
        decide (now - 13 * msPerDay ≤ r.created_at))).length ∧
      d.downloaded14d = (db.filter (fun r => r.event_type == "qr_downloaded" &&
        decide (now - 13 * msPerDay ≤ r.created_at))).length := by
  refine ⟨{ totalEvents := (recentPage db).length,
            uniqueSessions :=
              (firstOccs ((recentPage db).map (fun r => r.session_id))).length,
            pageVisits14d := countByType db "page_visit" (now - 13 * msPerDay),
            generated14d := countByType db "qr_generated" (now - 13 * msPerDay),
            downloaded14d := countByType db "qr_downloaded" (now - 13 * msPerDay),
            topDomains := topDomainsOf (recentPage db),
            trend := trendOf now (recentPage db),
            recent := (recentPage db).take 20 }, ?_, rfl, rfl, rfl⟩
  unfold AdminPage adminContent
  rw [hAuth, hCfg]
  rfl

/-- C8 witness. -/
theorem counts_exact_witness :
    isAuthorized ⟨none, true⟩ [] = true ∧
    (∃ d, AdminPage ⟨none, true⟩ [] [] none 0 = AdminView.dashboard d ∧
      d.pageVisits14d = (([] : List Row).filter
        (fun r => r.event_type == "page_visit" &&
          decide (0 - 13 * msPerDay ≤ r.created_at))).length ∧
      d.generated14d = (([] : List Row).filter
        (fun r => r.event_type == "qr_generated" &&
          decide (0 - 13 * msPerDay ≤ r.created_at))).length ∧
      d.downloaded14d = (([] : List Row).filter
        (fun r => r.event_type == "qr_downloaded" &&
          decide (0 - 13 * msPerDay ≤ r.created_at))).length) :=
  ⟨rfl, counts_exact ⟨none, true⟩ [] [] 0 rfl rfl⟩

/-! ### First-occurrence and tally lemmas (claim C7) -/

theorem mem_firstOccsAux {α : Type} [DecidableEq α] (seen l : List α)
    (a : α) :
    a ∈ firstOccsAux seen l ↔ a ∈ l ∧ a ∉ seen := by
  induction l generalizing seen with
  | nil => simp [firstOccsAux]
  | cons x xs ih =>
    rw [firstOccsAux]
    by_cases hx : x ∈ seen
    · rw [if_pos hx, ih]
      constructor
      · rintro ⟨h1, h2⟩
        exact ⟨List.mem_cons_of_mem _ h1, h2⟩
      · rintro ⟨h1, h2⟩
        rcases List.mem_cons.mp h1 with rfl | h1'
        · exact absurd hx h2
        · exact ⟨h1', h2⟩
    · rw [if_neg hx, List.mem_cons, ih]
      constructor
      · rintro (rfl | ⟨h1, h2⟩)
        · exact ⟨List.mem_cons_self _ _, hx⟩
        · refine ⟨List.mem_cons_of_mem _ h1, fun hs => ?_⟩
          exact h2 (List.mem_append_left _ hs)
      · rintro ⟨h1, h2⟩
        by_cases hax : a = x
        · exact Or.inl hax
        · have h1' : a ∈ xs := by
            rcases List.mem_cons.mp h1 with h | h
            · exact absurd h hax
            · exact h
          refine Or.inr ⟨h1', fun hs => ?_⟩
          rcases List.mem_append.mp hs with hs1 | hs2
          · exact h2 hs1
          · exact hax (by simpa using hs2)

theorem mem_firstOccs {α : Type} [DecidableEq α] (l : List α) (a : α) :
    a ∈ firstOccs l ↔ a ∈ l := by
  unfold firstOccs
  rw [mem_firstOccsAux]
  simp

theorem firstOccs_nodup {α : Type} [DecidableEq α] (l : List α) :
    (firstOccs l).Nodup := by
  unfold firstOccs
  suffices h : ∀ seen, (firstOccsAux (α := α) seen l).Nodup from h []
  induction l with
  | nil => intro seen; exact List.nodup_nil
  | cons x xs ih =>
    intro seen
    rw [firstOccsAux]
    by_cases hx : x ∈ seen
    · rw [if_pos hx]
      exact ih seen
    · rw [if_neg hx]
      refine List.nodup_cons.mpr ⟨?_, ih (seen ++ [x])⟩
      intro hmem
      exact ((mem_firstOccsAux _ _ _).mp hmem).2
        (List.mem_append_right _ (by simp))

theorem firstOccsAux_append_singleton {α : Type} [DecidableEq α]
    (l : List α) (d : α) :
    ∀ seen, firstOccsAux seen (l ++ [d]) =
      firstOccsAux seen l ++ (if d ∈ seen ∨ d ∈ l then [] else [d]) := by
  induction l with
  | nil =>
    intro seen
    by_cases hd : d ∈ seen
    · simp [firstOccsAux, hd]
    · simp [firstOccsAux, hd]
  | cons x xs ih =>
    intro seen
    rw [List.cons_append, firstOccsAux, firstOccsAux]
    by_cases hx : x ∈ seen
    · rw [if_pos hx, if_pos hx, ih seen]
      by_cases hdc : d ∈ seen ∨ d ∈ xs
      · rw [if_pos hdc, if_pos (by
          rcases hdc with h | h
          · exact Or.inl h
          · exact Or.inr (List.mem_cons_of_mem _ h))]
      · rw [if_neg hdc, if_neg (by
          rintro (h | h)
          · exact hdc (Or.inl h)
          · rcases List.mem_cons.mp h with rfl | h'
            · exact hdc (Or.inl hx)
            · exact hdc (Or.inr h'))]
    · rw [if_neg hx, if_neg hx, ih (seen ++ [x]), List.cons_append]
      by_cases hdc : d ∈ seen ++ [x] ∨ d ∈ xs
      · rw [if_pos hdc, if_pos (by
          rcases hdc with h | h
          · rcases List.mem_append.mp h with h' | h'
            · exact Or.inl h'
            · have hdx : d = x := by simpa using h'
              exact Or.inr (by rw [hdx]; exact List.mem_cons_self x xs)
          · exact Or.inr (List.mem_cons_of_mem _ h))]
      · rw [if_neg hdc, if_neg (by
          rintro (h | h)
          · exact hdc (Or.inl (List.mem_append_left _ h))
          · rcases List.mem_cons.mp h with rfl | h'
            · exact hdc (Or.inl (List.mem_append_right _ (by simp)))
            · exact hdc (Or.inr h'))]

theorem firstOccs_append_singleton {α : Type} [DecidableEq α] (l : List α)
    (d : α) :
    firstOccs (l ++ [d]) =
      firstOccs l ++ (if d ∈ l then [] else [d]) := by
  unfold firstOccs
  rw [firstOccsAux_append_singleton l d []]
  by_cases hd : d ∈ l
  · rw [if_pos hd, if_pos (by simpa using hd)]
  · rw [if_neg hd, if_neg (by simpa using hd)]

theorem mapGet_mapKeys {α ν : Type} [DecidableEq α] (keys : List α) (d : α)
    (f : α → ν) :
    mapGet d (keys.map (fun k => (k, f k))) =
      if d ∈ keys then some (f d) else none := by
  induction keys with
  | nil => simp [mapGet]
  | cons k ks ih =>
    simp only [List.map_cons, mapGet_cons]
    by_cases hd : d = k
    · subst hd
      rw [if_pos rfl, if_pos (List.mem_cons_self _ _)]
    · rw [if_neg hd, ih]
      by_cases hm : d ∈ ks
      · rw [if_pos hm, if_pos (List.mem_cons_of_mem _ hm)]
      · rw [if_neg hm, if_neg (by simp [List.mem_cons, hd, hm])]

theorem mapSet_mapKeys_mem {α ν : Type} [DecidableEq α] (keys : List α)
    (d : α) (v : ν) (f : α → ν) (hnd : keys.Nodup) (hd : d ∈ keys) :
    mapSet d v (keys.map (fun k => (k, f k))) =
      keys.map (fun k => (k, if k = d then v else f k)) := by
  induction keys with
  | nil => cases hd
  | cons k ks ih =>
    simp only [List.map_cons, mapSet_cons]
    obtain ⟨hk, hnd'⟩ := List.nodup_cons.mp hnd
    by_cases hdk : d = k
    · subst hdk
      rw [if_pos rfl, if_pos rfl]
      congr 1
      apply List.map_congr_left
      intro a ha
      rw [if_neg (fun had : a = d => hk (had ▸ ha))]
    · have hdks : d ∈ ks := by
        rcases List.mem_cons.mp hd with h | h
        · exact absurd h hdk
        · exact h
      rw [if_neg hdk, if_neg (fun h : k = d => hdk h.symm), ih hnd' hdks]

theorem domainSeq_cons_none {r : Row} {rows : List Row}
    (h : genDomain r = none) :
    domainSeq (r :: rows) = domainSeq rows := by
  simp [domainSeq, List.filterMap_cons, h]

theorem domainSeq_cons_some {r : Row} {rows : List Row} {d : String}
    (h : genDomain r = some d) :
    domainSeq (r :: rows) = d :: domainSeq rows := by
  simp [domainSeq, List.filterMap_cons, h]

theorem domainCountsOf_inv (rows : List Row) (seq : List String) :
    rows.foldl
      (fun m r =>
        match genDomain r with
        | none => m
        | some d => mapSet d ((mapGet d m).getD 0 + 1) m)
      ((firstOccs seq).map (fun d => (d, seq.count d))) =
      (firstOccs (seq ++ domainSeq rows)).map
        (fun d => (d, (seq ++ domainSeq rows).count d)) := by
  induction rows generalizing seq with
  | nil => simp [domainSeq]
  | cons r rest ih =>
    rw [List.foldl_cons]
    cases hg : genDomain r with
    | none =>
      rw [domainSeq_cons_none hg]
      simp only [hg]
      exact ih seq
    | some d =>
      rw [domainSeq_cons_some hg]
      simp only [hg]
      have hassoc : seq ++ d :: domainSeq rest =
          (seq ++ [d]) ++ domainSeq rest := by
        simp
      rw [hassoc]
      by_cases hd : d ∈ seq
      · have hone : d ∈ firstOccs seq := (mem_firstOccs seq d).mpr hd
        have hget : mapGet d
            ((firstOccs seq).map (fun k => (k, seq.count k))) =
            some (seq.count d) := by
          rw [mapGet_mapKeys, if_pos hone]
        rw [hget]
        simp only [Option.getD_some]
        rw [mapSet_mapKeys_mem _ _ _ _ (firstOccs_nodup seq) hone]
        have hfo : firstOccs (seq ++ [d]) = firstOccs seq := by
          rw [firstOccs_append_singleton, if_pos hd, List.append_nil]
        have hmapeq : (firstOccs seq).map
            (fun k => (k, if k = d then seq.count d + 1 else seq.count k)) =
            (firstOccs (seq ++ [d])).map
              (fun k => (k, (seq ++ [d]).count k)) := by
          rw [hfo]
          apply List.map_congr_left
          intro k hk
          simp only [Prod.mk.injEq, true_and]
          rw [List.count_append]
          by_cases hkd : k = d
          · subst hkd
            rw [if_pos rfl]
            simp [List.count_cons]
          · rw [if_neg hkd]
            simp [List.count_cons, hkd]
        rw [hmapeq]
        exact ih (seq ++ [d])
      · have hnone : mapGet d
            ((firstOccs seq).map (fun k => (k, seq.count k))) = none := by
          rw [mapGet_mapKeys,
            if_neg (fun h => hd ((mem_firstOccs seq d).mp h))]
        rw [hnone]
        simp only [Option.getD_none, Nat.zero_add]
        rw [mapSet_absent _ _ hnone]
        have hfo : firstOccs (seq ++ [d]) = firstOccs seq ++ [d] := by
          rw [firstOccs_append_singleton, if_neg hd]
        have hmapeq : (firstOccs seq).map (fun k => (k, seq.count k)) ++
            [(d, 1)] =
            (firstOccs (seq ++ [d])).map
              (fun k => (k, (seq ++ [d]).count k)) := by
          rw [hfo, List.map_append]
          congr 1
          · apply List.map_congr_left
            intro k hk
            simp only [Prod.mk.injEq, true_and]
            have hkd : ¬ k = d :=
              fun h => hd (h ▸ (mem_firstOccs seq k).mp hk)
            rw [List.count_append]
            simp [List.count_cons, hkd]
          · simp only [List.map_cons, List.map_nil, List.count_append]
            rw [List.count_eq_zero.mpr hd]
            simp [List.count_cons]
        rw [hmapeq]
        exact ih (seq ++ [d])

theorem domainCountsOf_eq (rows : List Row) :
    domainCountsOf rows = (firstOccs (domainSeq rows)).map
      (fun d => (d, (domainSeq rows).count d)) := by
  have h := domainCountsOf_inv rows []
  simpa [firstOccs, firstOccsAux, domainCountsOf] using h

theorem count_domainSeq (rows : List Row) (d : String) :
    (domainSeq rows).count d =
      (rows.filter (fun r => genDomain r == some d)).length := by
  induction rows with
  | nil => simp [domainSeq]
  | cons r rest ih =>
    rw [List.filter_cons]
    cases hg : genDomain r with
    | none =>
      rw [domainSeq_cons_none hg, ih]
      simp
    | some e =>
      rw [domainSeq_cons_some hg, List.count_cons, ih]
      by_cases hed : e = d
      · subst hed
        simp
      · have h1 : ¬ d = e := fun h => hed h.symm
        simp [hed, h1]

theorem genDomain_some (r : Row) (d : String) (h : genDomain r = some d) :
    r.event_type = "qr_generated" ∧ d ≠ "" ∧
      readDomain (mapGet "destinationUrl" r.payload) = some d := by
  unfold genDomain at h
  by_cases ht : r.event_type = "qr_generated"
  · rw [if_pos ht] at h
    cases hr : readDomain (mapGet "destinationUrl" r.payload) with
    | none =>
      rw [hr] at h
      cases h
    | some e =>
      rw [hr] at h
      simp only [] at h
      by_cases he : e = ""
      · rw [if_pos he] at h
        cases h
      · rw [if_neg he] at h
        injection h with h
        subst h
        exact ⟨ht, he, rfl⟩
  · rw [if_neg ht] at h
    cases h

/-! ### Stable descending sort lemmas (claim C7) -/

theorem orderedInsert_pairwise (entries : List (String × Nat))
    (x : String × Nat) :
    ∀ l : List (String × Nat),
      (∀ y ∈ l, x.2 = y.2 → [x, y].Sublist entries) →
      l.Pairwise byCountDesc → l.Pairwise (rankRel entries) →
      (l.orderedInsert byCountDesc x).Pairwise byCountDesc ∧
      (l.orderedInsert byCountDesc x).Pairwise (rankRel entries) := by
  intro l
  induction l with
  | nil =>
    intro _ _ _
    constructor <;> simp [List.orderedInsert]
  | cons y ys ih =>
    intro hx hsort hrank
    rw [List.orderedInsert]
    by_cases hr : byCountDesc x y
    · rw [if_pos hr]
      have hall : ∀ z ∈ y :: ys, z.2 ≤ x.2 := by
        intro z hz
        rcases List.mem_cons.mp hz with rfl | hz'
        · exact hr
        · exact Nat.le_trans ((List.pairwise_cons.mp hsort).1 z hz') hr
      constructor
      · exact List.pairwise_cons.mpr ⟨fun z hz => hall z hz, hsort⟩
      · refine List.pairwise_cons.mpr ⟨?_, hrank⟩
        intro z hz
        rcases Nat.lt_or_ge z.2 x.2 with hlt | hge
        · exact Or.inl hlt
        · have heq : x.2 = z.2 := Nat.le_antisymm hge (hall z hz)
          exact Or.inr ⟨heq, hx z hz heq⟩
    · rw [if_neg hr]
      have hlt : x.2 < y.2 := by
        unfold byCountDesc at hr
        omega
      obtain ⟨hsort1, hsort'⟩ := List.pairwise_cons.mp hsort
      obtain ⟨hrank1, hrank'⟩ := List.pairwise_cons.mp hrank
      obtain ⟨ihs, ihr⟩ := ih
        (fun z hz he => hx z (List.mem_cons_of_mem _ hz) he) hsort' hrank'
      constructor
      · refine List.pairwise_cons.mpr ⟨?_, ihs⟩
        intro z hz
        rcases (List.mem_orderedInsert _).mp hz with rfl | hz'
        · exact Nat.le_of_lt hlt
        · exact hsort1 z hz'
      · refine List.pairwise_cons.mpr ⟨?_, ihr⟩
        intro z hz
        rcases (List.mem_orderedInsert _).mp hz with rfl | hz'
        · exact Or.inl hlt
        · exact hrank1 z hz'

theorem insertionSort_rank (entries : List (String × Nat)) :
    ∀ l : List (String × Nat),
      (∀ a b, [a, b].Sublist l → [a, b].Sublist entries) →
      (l.insertionSort byCountDesc).Pairwise byCountDesc ∧
      (l.insertionSort byCountDesc).Pairwise (rankRel entries) := by
  intro l
  induction l with
  | nil =>
    intro _
    constructor <;> simp
  | cons x xs ih =>
    intro hsub
    rw [List.insertionSort]
    obtain ⟨ihs, ihr⟩ := ih
      (fun a b hab => hsub a b (List.Sublist.cons x hab))
    refine orderedInsert_pairwise entries x _ ?_ ihs ihr
    intro y hy he
    have hyxs : y ∈ xs := (List.mem_insertionSort byCountDesc).mp hy
    exact hsub x y (List.Sublist.cons₂ x (List.singleton_sublist.mpr hyxs))

/-- C7: for every loaded row page, the domain tally counts only rows of the
code-generated kind with a parseable, non-empty destination hostname; each
reported count is the exact number of such rows for that hostname; the
output is at most five entries, ranked by strictly descending frequency
with ties in first-encountered page order. -/
theorem top_domains_ranking (rows : List Row) :
    (topDomainsOf rows).length ≤ 5 ∧
    domainCountsOf rows = (firstOccs (domainSeq rows)).map
      (fun d => (d, (domainSeq rows).count d)) ∧
    (∀ p, p ∈ topDomainsOf rows →
      p.1 ≠ "" ∧
      p.2 = (rows.filter (fun r => genDomain r == some p.1)).length ∧
      ∃ r, r ∈ rows ∧ r.event_type = "qr_generated" ∧
        genDomain r = some p.1) ∧
    (topDomainsOf rows).Pairwise (fun a b => b.2 < a.2 ∨
      (a.2 = b.2 ∧ [a.1, b.1].Sublist (firstOccs (domainSeq rows)))) := by
  refine ⟨?_, domainCountsOf_eq rows, ?_, ?_⟩
  · exact List.length_take_le _ _
  · intro p hp
    have hp1 : p ∈ (domainCountsOf rows).insertionSort byCountDesc :=
      (List.take_sublist _ _).subset hp
    have hp2 : p ∈ domainCountsOf rows :=
      (List.mem_insertionSort byCountDesc).mp hp1
    rw [domainCountsOf_eq] at hp2
    obtain ⟨d, hdmem, hdp⟩ := List.mem_map.mp hp2
    have hdseq : d ∈ domainSeq rows := (mem_firstOccs _ _).mp hdmem
    obtain ⟨r, hr, hgr⟩ := List.mem_filterMap.mp hdseq
    obtain ⟨hqr, hne, _⟩ := genDomain_some r d hgr
    obtain ⟨hfst, hsnd⟩ : p.1 = d ∧ p.2 = (domainSeq rows).count d := by
      constructor
      · rw [← hdp]
      · rw [← hdp]
    refine ⟨by rw [hfst]; exact hne, ?_, ?_⟩
    · rw [hsnd, hfst, count_domainSeq]
    · exact ⟨r, hr, hqr, by rw [hfst]; exact hgr⟩
  · have hmain := (insertionSort_rank (domainCountsOf rows)
      (domainCountsOf rows) (fun a b h => h)).2
    have htake : (topDomainsOf rows).Pairwise
        (rankRel (domainCountsOf rows)) :=
      List.Pairwise.sublist (List.take_sublist _ _) hmain
    refine htake.imp ?_
    intro a b hab
    rcases hab with hlt | ⟨heq, hsl⟩
    · exact Or.inl hlt
    · refine Or.inr ⟨heq, ?_⟩
      have hfst : ((firstOccs (domainSeq rows)).map
          (fun d => (d, (domainSeq rows).count d))).map Prod.fst =
          firstOccs (domainSeq rows) := by
        rw [List.map_map]
        have hcomp : (Prod.fst ∘ fun d : String =>
            (d, (domainSeq rows).count d)) = fun d => d := rfl
        rw [hcomp, List.map_id']
      have hsl' := hsl.map Prod.fst
      rw [domainCountsOf_eq, hfst] at hsl'
      simpa using hsl'

/-- C7 witness: on a concrete page (one `b.com` row, two `a.com` rows) the
entry `("a.com", 2)` is ranked, and its count is the exact number of
code-generated rows whose destination hostname is `a.com`. -/
theorem top_domains_ranking_witness :
    (("a.com", 2) ∈ topDomainsOf
      [⟨1, "qr_generated", "s", [("destinationUrl", .str "https://b.com/")],
        "h", none, none⟩,
       ⟨2, "qr_generated", "s", [("destinationUrl", .str "https://a.com/")],
        "h", none, none⟩,
       ⟨3, "qr_generated", "s", [("destinationUrl", .str "https://a.com/")],
        "h", none, none⟩]) ∧
    (("a.com", 2) : String × Nat).2 =
      (([⟨1, "qr_generated", "s",
          [("destinationUrl", .str "https://b.com/")], "h", none, none⟩,
         ⟨2, "qr_generated", "s",
          [("destinationUrl", .str "https://a.com/")], "h", none, none⟩,
         ⟨3, "qr_generated", "s",
          [("destinationUrl", .str "https://a.com/")], "h", none, none⟩] :
        List Row).filter
          (fun r => genDomain r == some ("a.com", 2).1)).length :=
  ⟨by decide,
   ((top_domains_ranking
     [⟨1, "qr_generated", "s", [("destinationUrl", .str "https://b.com/")],
       "h", none, none⟩,
      ⟨2, "qr_generated", "s", [("destinationUrl", .str "https://a.com/")],
       "h", none, none⟩,
      ⟨3, "qr_generated", "s", [("destinationUrl", .str "https://a.com/")],
       "h", none, none⟩]).2.2.1 ("a.com", 2) (by decide)).2.1⟩

/-! ### URL-normalizer lemmas (claim C2) -/

theorem dropLead_prepend (t : List Char) :
    ("https://".data ++ t).dropWhile isC0Space = "https://".data ++ t := by
  have h : "https://".data ++ t = 'h' :: ("ttps://".data ++ t) := rfl
  rw [h, List.dropWhile_cons, if_neg (by decide)]

theorem dropTrail_prepend (t : List Char) :
    dropTrailWhile isC0Space ("https://".data ++ t) =
      "https://".data ++ dropTrailWhile isC0Space t := by
  unfold dropTrailWhile
  rw [List.reverse_append, List.dropWhile_append]
  by_cases h : (t.reverse.dropWhile isC0Space).isEmpty
  · rw [if_pos h]
    have h2 : "https://".data.reverse.dropWhile isC0Space =
        "https://".data.reverse := by decide
    have h3 : t.reverse.dropWhile isC0Space = [] := List.isEmpty_iff.mp h
    rw [h2, h3]
    simp
  · rw [if_neg h, List.reverse_append, List.reverse_reverse]

theorem filter_prepend (x : List Char) :
    ("https://".data ++ x).filter (fun c => !(isTabNl c)) =
      "https://".data ++ x.filter (fun c => !(isTabNl c)) := by
  rw [List.filter_append,
    show List.filter (fun c => !(isTabNl c)) "https://".data =
      "https://".data from by decide]

theorem normChars_prepend (t : String) :
    normChars ("https://" ++ t) =
      "https://".data ++
        (dropTrailWhile isC0Space t.data).filter (fun c => !(isTabNl c)) := by
  unfold normChars
  rw [String.data_append, dropLead_prepend, dropTrail_prepend, filter_prepend]

theorem schemeSplit_prepend (x : List Char) :
    schemeSplit ("https://".data ++ x) =
      some ("https".data, '/' :: '/' :: x) := rfl

theorem parseSpecialRest_scheme (scheme : String) (dp : Option Nat)
    (rest : List Char) (u : URLRec)
    (h : parseSpecialRest scheme dp rest = some u) : u.scheme = scheme := by
  unfold parseSpecialRest at h
  obtain ⟨c, _, hcu⟩ := Option.map_eq_some'.mp h
  rw [← hcu]

theorem parseURL_prepend (t : String) :
    parseURL ("https://" ++ t) =
      parseSpecialRest "https" (some 443)
        ('/' :: '/' :: (dropTrailWhile isC0Space t.data).filter
          (fun c => !(isTabNl c))) := by
  unfold parseURL
  rw [normChars_prepend, schemeSplit_prepend]
  rfl

theorem parseURL_prepend_scheme (t : String) (u : URLRec)
    (h : parseURL ("https://" ++ t) = some u) : u.scheme = "https" := by
  rw [parseURL_prepend] at h
  exact parseSpecialRest_scheme _ _ _ _ h

theorem dropWhile_idem (p : Char → Bool) (l : List Char) :
    (l.dropWhile p).dropWhile p = l.dropWhile p := by
  induction l with
  | nil => rfl
  | cons c cs ih =>
    rw [List.dropWhile_cons]
    by_cases h : p c
    · rw [if_pos h]
      exact ih
    · rw [if_neg h, List.dropWhile_cons, if_neg h]

theorem dropTrail_idem (p : Char → Bool) (l : List Char) :
    dropTrailWhile p (dropTrailWhile p l) = dropTrailWhile p l := by
  unfold dropTrailWhile
  rw [List.reverse_reverse, dropWhile_idem]

theorem dropWhile_fixed_dropTrail (p : Char → Bool) (l : List Char)
    (h : l.dropWhile p = l) :
    (dropTrailWhile p l).dropWhile p = dropTrailWhile p l := by
  cases l with
  | nil => rfl
  | cons c cs =>
    have hc : ¬ p c = true := by
      intro hpc
      rw [List.dropWhile_cons, if_pos hpc] at h
      have hlen := congrArg List.length h
      have hle := (List.dropWhile_sublist (l := cs) (p := p)).length_le
      simp at hlen
      omega
    unfold dropTrailWhile
    rw [List.reverse_cons, List.dropWhile_append]
    by_cases he : (cs.reverse.dropWhile p).isEmpty
    · rw [if_pos he]
      have h1 : List.dropWhile p [c] = [c] := by
        rw [show [c] = c :: ([] : List Char) from rfl, List.dropWhile_cons,
          if_neg hc]
      rw [h1]
      show List.dropWhile p [c] = [c]
      exact h1
    · rw [if_neg he, List.reverse_append]
      show List.dropWhile p (c :: (cs.reverse.dropWhile p).reverse) = _
      rw [List.dropWhile_cons, if_neg hc]
      simp

theorem jsTrim_idem (s : String) : jsTrim (jsTrim s) = jsTrim s := by
  unfold jsTrim
  congr 1
  have hdata : (String.mk (jsTrimChars s.data)).data = jsTrimChars s.data :=
    rfl
  rw [hdata]
  unfold jsTrimChars
  have h1 : (dropTrailWhile isJsWs (s.data.dropWhile isJsWs)).dropWhile
      isJsWs = dropTrailWhile isJsWs (s.data.dropWhile isJsWs) :=
    dropWhile_fixed_dropTrail isJsWs _ (dropWhile_idem isJsWs s.data)
  rw [h1, dropTrail_idem]

/-- C2 counterexample: the claim says an input carrying a URL scheme other
than HTTP(S) normalizes to absent, and that every scheme-less input's
prepended form parses as a valid URL.  But `normalizeUrl` only treats
`http://`/`https://` text as having a scheme: `ftp://example.com` gets
`https://` prepended and normalizes to the present value
`https://ftp//example.com` (host `ftp`, empty port, path `//example.com`);
and the scheme-less input `a b` fails to parse (space in the host), so the
result is absent rather than a valid URL. -/
theorem normalize_url_counterexample :
    (extractScheme "ftp://example.com" = some "ftp" ∧
      normalizeUrl "ftp://example.com" = some "https://ftp//example.com") ∧
    (extractScheme "a b" = none ∧ normalizeUrl "a b" = none) := by
  refine ⟨⟨?_, ?_⟩, ?_, ?_⟩ <;> decide

/-- C2 amended: `normalizeUrl` trims its input and rejects the empty
result; inputs without a case-insensitive `http://`/`https://` start — the
code's only notion of "having a scheme" — get `https://` prepended, and
the result is the canonical serialization of the parsed URL when the
(possibly prepended) text parses, absent when parsing fails; every
successful result is the canonical string of a URL whose protocol is
`http:` or `https:`; `example.com` normalizes to `https://example.com/`
and `javascript:alert(1)` is rejected (its prepended form has a
non-numeric port). -/
theorem normalize_url_amended (raw : String) :
    (jsTrim raw = "" → normalizeUrl raw = none) ∧
    normalizeUrl raw = normalizeUrl (jsTrim raw) ∧
    (jsTrim raw ≠ "" → hasHttpSchemeStart (jsTrim raw) = false →
      normalizeUrl raw = (parseURL ("https://" ++ jsTrim raw)).map
        URLRec.href) ∧
    (∀ u, normalizeUrl raw = some u →
      ∃ rec, parseURL (withProtocol (jsTrim raw)) = some rec ∧
        u = rec.href ∧ VALID_PROTOCOLS.contains rec.protocol = true) ∧
    normalizeUrl "example.com" = some "https://example.com/" ∧
    normalizeUrl "javascript:alert(1)" = none := by
  refine ⟨?_, ?_, ?_, ?_, by decide, by decide⟩
  · intro h
    simp [normalizeUrl, h]
  · simp only [normalizeUrl, jsTrim_idem]
  · intro h1 h2
    have hw : withProtocol (jsTrim raw) = "https://" ++ jsTrim raw := by
      unfold withProtocol
      rw [h2]
      rfl
    unfold normalizeUrl
    rw [if_neg h1, hw]
    cases hP : parseURL ("https://" ++ jsTrim raw) with
    | none => rfl
    | some u =>
      have hs := parseURL_prepend_scheme _ _ hP
      have hproto : u.protocol = "https:" := by
        unfold URLRec.protocol
        rw [hs]
        decide
      have hcontains : VALID_PROTOCOLS.contains u.protocol = true := by
        rw [hproto]
        decide
      have hmem : u.protocol ∈ VALID_PROTOCOLS := by
        rw [hproto]
        decide
      simp [hcontains, hmem]
  · intro u hu
    unfold normalizeUrl at hu
    by_cases h0 : jsTrim raw = ""
    · rw [if_pos h0] at hu
      cases hu
    · rw [if_neg h0] at hu
      cases hP : parseURL (withProtocol (jsTrim raw)) with
      | none =>
        rw [hP] at hu
        have hu' : (none : Option String) = some u := hu
        cases hu'
      | some rec =>
        rw [hP] at hu
        have hu' : (if VALID_PROTOCOLS.contains rec.protocol = true
            then some rec.href else none) = some u := hu
        by_cases hc : VALID_PROTOCOLS.contains rec.protocol = true
        · rw [if_pos hc] at hu'
          injection hu' with hu'
          exact ⟨rec, rfl, hu'.symm, hc⟩
        · rw [if_neg hc] at hu'
          cases hu'

/-- C2 amended witness. -/
theorem normalize_url_amended_witness :
    jsTrim "example.com" ≠ "" ∧
    hasHttpSchemeStart (jsTrim "example.com") = false ∧
    normalizeUrl "example.com" =
      (parseURL ("https://" ++ jsTrim "example.com")).map URLRec.href :=
  ⟨by decide, by decide,
   (normalize_url_amended "example.com").2.2.1 (by decide) (by decide)⟩

end QuickQR
